import Mathlib

set_option maxRecDepth 2000

/-!
Shallow embedding of the ipcam26Xconvert converter (main.c together with
ipcamvideofilefmt.h) and a verification of the design-specification claims
about its two passes.

The input file is modelled as a list of byte values.  The stdio stream is
modelled by the not-yet-consumed suffix of the file together with the
end-of-file indicator flag: fread consumes from the front and sets the flag
only when it comes up short (the indicator is not set by a read that is
exactly satisfied), and fseek with a forward offset always succeeds on a
regular file, clears the flag, and may move past the end of the data.

C doubles are modelled as exact fractions (numerator and denominator kept
as unreduced integers); every denominator produced by the code is positive,
which is proved where a sign comparison depends on it.  32-bit unsigned
arithmetic is modelled on Nat with explicit reduction modulo 2^32; the
casts to int and long follow the C conversion rules.

Both scanning loops of main.c are modelled byte-exactly, fuel-indexed by
the length of the file (each iteration of the do/while loop consumes at
least the four tag bytes, so the fuel never runs out on the runs the
theorems talk about; running out of fuel yields none).
-/

/-- Exact fraction model for a C double.  Operations mirror source-level
floating arithmetic exactly (no rounding); denominators are not reduced. -/
structure Frac where
  num : Int
  den : Int
deriving DecidableEq

def Frac.add (x y : Frac) : Frac := ⟨x.num * y.den + y.num * x.den, x.den * y.den⟩

def Frac.mul (x y : Frac) : Frac := ⟨x.num * y.num, x.den * y.den⟩

def Frac.fdiv (x y : Frac) : Frac := ⟨x.num * y.den, x.den * y.num⟩

def Frac.ofInt (n : Int) : Frac := ⟨n, 1⟩

/-- The rational value carried by a fraction. -/
def Frac.toRat (f : Frac) : Rat := (f.num : Rat) / (f.den : Rat)

/-- C round(): rounding half away from zero, then truncating cast to int.
On a fraction with positive denominator this is exact. -/
def cround (f : Frac) : Int :=
  if f.num < 0 then -((2 * (-f.num) + f.den).fdiv (2 * f.den))
  else (2 * f.num + f.den).fdiv (2 * f.den)

/-- The C cast (int) applied to a uint32 value. -/
def toInt32 (n : Nat) : Int :=
  if n < 2147483648 then (n : Int) else (n : Int) - 4294967296

/-- uint32 subtraction length - 4 as performed on hxaf.length. -/
def wrapSub4 (len : Nat) : Nat := (len + 4294967292) % 4294967296

/-- The stdio stream: remaining bytes and the end-of-file indicator. -/
structure FS where
  rem : List Nat
  eof : Bool
deriving DecidableEq

/-- fread of n bytes: a fully satisfied read does not set the indicator;
a short read drains the stream and sets it. -/
def freadN (n : Nat) (fs : FS) : List Nat × FS :=
  if n ≤ fs.rem.length then (fs.rem.take n, ⟨fs.rem.drop n, fs.eof⟩)
  else (fs.rem, ⟨[], true⟩)

/-- fseek(fp, n, SEEK_CUR) for n ≥ 0 on a regular file: always succeeds,
clears the end-of-file indicator, may point past the end of the data. -/
def fseekCur (n : Nat) (fs : FS) : FS := ⟨fs.rem.drop n, false⟩

/-- Little-endian bytes of a 32-bit value. -/
def le32 (n : Nat) : List Nat :=
  [n % 256, n / 256 % 256, n / 65536 % 256, n / 16777216 % 256]

/-- Value of a little-endian byte list. -/
def leVal (bs : List Nat) : Nat := bs.foldr (fun b acc => b + 256 * acc) 0

/-- Packet tag codes from ipcamvideofilefmt.h. -/
def HXVS : Nat := 1398167624

def HXVT : Nat := 1414944840

def HXVF : Nat := 1180063816

def HXAF : Nat := 1178687560

def HXFI : Nat := 1229346888

/-- The scan state of the first pass over the input (main.c lines 188-196).
video_w and video_h are none until a size descriptor has been read. -/
structure InferState where
  video_w : Option Int := none
  video_h : Option Int := none
  video_avg_frame_rate : Frac := ⟨0, 1⟩
  audio_avg_sample_rate : Frac := ⟨0, 1⟩
  video_ts_initial : Int := -1
  audio_ts_initial : Int := -1
  video_ts_prev : Int := -1
  audio_ts_prev : Int := -1
  audio_packets_count : Int := 0
  video_packets_count : Int := 0
deriving DecidableEq

/-- The HXVF timestamp/rate update of the Inference Pass
(main.c lines 226-245), byte for byte including the initialisation of
video_ts_prev to the raw (not rebased) first timestamp. -/
def videoTsUpdate (ts : Int) (st : InferState) : InferState :=
  if st.video_ts_initial = -1 then
    { st with video_ts_initial := ts, video_ts_prev := ts }
  else
    let timestamp := ts - st.video_ts_initial
    let st2 :=
      if st.video_ts_prev < timestamp then
        let elapsed := timestamp - st.video_ts_prev
        let newRate :=
          if st.video_packets_count ≠ 0 then
            Frac.fdiv
              (Frac.add (Frac.mul st.video_avg_frame_rate (Frac.ofInt st.video_packets_count))
                (Frac.fdiv ⟨1000, 1⟩ (Frac.ofInt elapsed)))
              (Frac.ofInt (st.video_packets_count + 1))
          else Frac.fdiv ⟨1000, 1⟩ (Frac.ofInt elapsed)
        { st with video_avg_frame_rate := newRate,
                  video_packets_count := st.video_packets_count + 1 }
      else st
    { st2 with video_ts_prev := timestamp }

/-- The HXAF timestamp/rate update of the Inference Pass
(main.c lines 259-277); the instantaneous sample is
(length - 4) / elapsed with the uint32 wrap of length - 4. -/
def audioTsUpdate (len : Nat) (ts : Int) (st : InferState) : InferState :=
  if st.audio_ts_initial = -1 then
    { st with audio_ts_initial := ts, audio_ts_prev := ts }
  else
    let timestamp := ts - st.audio_ts_initial
    let st2 :=
      if st.audio_ts_prev < timestamp then
        let elapsed := timestamp - st.audio_ts_prev
        let sample := Frac.fdiv (Frac.ofInt (wrapSub4 len)) (Frac.ofInt elapsed)
        let newRate :=
          if st.audio_packets_count ≠ 0 then
            Frac.fdiv
              (Frac.add (Frac.mul st.audio_avg_sample_rate (Frac.ofInt st.audio_packets_count))
                sample)
              (Frac.ofInt (st.audio_packets_count + 1))
          else sample
        { st with audio_avg_sample_rate := newRate,
                  audio_packets_count := st.audio_packets_count + 1 }
      else st
    { st2 with audio_ts_prev := timestamp }

/-- Result of the Inference Pass: normal completion carrying its final scan
state, or the fatal "Premature end of file, aborting." exit(1). -/
inductive P1Result where
  | ok (st : InferState)
  | prematureEOF
deriving DecidableEq

/-- One do/while loop of the Inference Pass (main.c lines 197-294),
fuel-indexed.  Every fread is checked against its requested size exactly as
in the source; the loop condition !feof && !hxfi_detected is evaluated
after the body. -/
def pass1Go : Nat → FS → InferState → Option P1Result
  | 0, _, _ => none
  | fuel + 1, fs, st =>
    let hr := freadN 4 fs
    if hr.1.length ≠ 4 then some .prematureEOF
    else
      let tag := leVal hr.1
      if tag = HXVS then
        let br := freadN 12 hr.2
        if br.1.length ≠ 12 then some .prematureEOF
        else
          let st2 := { st with video_w := some (toInt32 (leVal (br.1.take 4))),
                               video_h := some (toInt32 (leVal ((br.1.drop 4).take 4))) }
          if br.2.eof then some (.ok st2) else pass1Go fuel br.2 st2
      else if tag = HXVF then
        let br := freadN 12 hr.2
        if br.1.length ≠ 12 then some .prematureEOF
        else
          let len := leVal (br.1.take 4)
          let ts : Int := (leVal ((br.1.drop 4).take 4) : Int)
          let st2 := videoTsUpdate ts st
          let fs3 := fseekCur len br.2
          if fs3.eof then some (.ok st2) else pass1Go fuel fs3 st2
      else if tag = HXAF then
        let br := freadN 16 hr.2
        if br.1.length ≠ 16 then some .prematureEOF
        else
          let len := leVal (br.1.take 4)
          let ts : Int := (leVal ((br.1.drop 4).take 4) : Int)
          let st2 := audioTsUpdate len ts st
          let fs3 := fseekCur (wrapSub4 len) br.2
          if fs3.eof then some (.ok st2) else pass1Go fuel fs3 st2
      else if tag = HXFI then
        some (.ok st)
      else
        if hr.2.eof then some (.ok st) else pass1Go fuel hr.2 st

/-- The Inference Pass run on a whole input file. -/
def pass1 (bytes : List Nat) : Option P1Result :=
  pass1Go (bytes.length + 1) ⟨bytes, false⟩ {}

/-- The video frame rate reported by a completed Inference Pass. -/
def resVideoRate (r : Option P1Result) : Frac :=
  match r with
  | some (.ok st) => st.video_avg_frame_rate
  | _ => ⟨-1, 1⟩

/-- The recorded video width of a completed Inference Pass. -/
def resVideoW (r : Option P1Result) : Option Int :=
  match r with
  | some (.ok st) => st.video_w
  | _ => none

/-- Physical content of the growable packet buffer.  Every position holds
some b for a byte written by an fread and none for bytes never written
(fresh malloc/realloc space).  The empty list models the NULL pointer
(ReadToBuffer never allocates zero bytes). -/
def Mem := List (Option Nat)

instance : DecidableEq Mem := inferInstanceAs (DecidableEq (List (Option Nat)))

/-- realloc semantics: the prefix up to the new size survives, any grown
region is uninitialised. -/
def resizeMem (mem : List (Option Nat)) (n : Nat) : List (Option Nat) :=
  mem.take n ++ List.replicate (n - mem.length) none

/-- Writing a byte run at an offset of the allocation (the region beyond
the bytes written is left as it was). -/
def writeMem (mem : List (Option Nat)) (off : Nat) (bytes : List Nat) :
    List (Option Nat) :=
  mem.take off ++ List.replicate (off - mem.length) (none : Option Nat) ++
    bytes.map some ++ mem.drop (off + bytes.length)

/-- Result of ReadToBuffer: bytes actually read, the buffer allocation, the
recorded *dest_size and the stream afterwards. -/
structure RTBResult where
  readCount : Nat
  mem : List (Option Nat)
  bsize : Nat
  fs : FS
deriving DecidableEq

/-- ReadToBuffer (main.c lines 36-67): early return on length 0; a buffer
that is allocated but too small is grown keeping its data when appending at
an offset, and discarded otherwise; *dest_size is then set to
length + dest_offset and length bytes are read at dest_offset. -/
def readToBuffer (fs : FS) (mem : List (Option Nat)) (bsize : Nat)
    (off : Nat) (length : Nat) : RTBResult :=
  if length = 0 then ⟨0, mem, bsize, fs⟩
  else
    let mem1 :=
      if mem ≠ [] ∧ bsize < length + off then
        (if off ≠ 0 then resizeMem mem (length + off) else [])
      else mem
    let mem2 := if mem1 = [] then List.replicate (length + off) (none : Option Nat) else mem1
    let br := freadN length fs
    ⟨br.1.length, writeMem mem2 off br.1, length + off, br.2⟩

/-- Kind of output stream a packet is written to. -/
inductive StreamKind where
  | video
  | audio
deriving DecidableEq

/-- One av_interleaved_write_frame call: the bytes handed over, the rebased
timestamp ts - ts_initial (an intermediate of the pts expression), and the
pts produced by scaling it into the muxer time base. -/
structure Emitted where
  stream : StreamKind
  data : List (Option Nat)
  relTs : Int
  pts : Int
deriving DecidableEq

/-- The parameters the Extraction Pass receives from stream setup:
whether an audio stream was created, both timestamp references from the
Inference Pass, and av_q2d of each muxer stream time base. -/
structure MuxParams where
  hasAudio : Bool
  video_ts_initial : Int
  audio_ts_initial : Int
  qv : Frac
  qa : Frac
deriving DecidableEq

/-- The NAL-header test of main.c line 457: the bit field unit_type:5
holds the low five bits of the byte that follows the 4-byte start code;
the packet is a parameter set when it is 7 or 8. -/
def nalIsPS (b : Option (Option Nat)) : Bool :=
  match b with
  | some (some v) => v % 32 == 7 || v % 32 == 8
  | _ => false

/-- Coalescing state of the Extraction Pass: the buffer allocation, the
recorded packet_buffer_length and packet_buffer_offset. -/
structure ExtractState where
  mem : List (Option Nat) := []
  bsize : Nat := 0
  boff : Nat := 0
deriving DecidableEq

/-- Outcome of the Extraction Pass. -/
inductive P2Outcome where
  | ok
  | prematureEOF
deriving DecidableEq

/-- The pts expression of main.c lines 464-465 and 491-492:
round of (ts - ts_initial) / (1000 * av_q2d(time_base)), cast to int. -/
def scalePts (relTs : Int) (q : Frac) : Int :=
  cround (Frac.fdiv (Frac.ofInt relTs) (Frac.mul ⟨1000, 1⟩ q))

/-- Outcome of one body of the extraction do/while loop: either the run
stops (end marker reached or fatal exit) or it proceeds to the loop
condition with the stream, state and emissions so far. -/
inductive Step2 where
  | stop (r : List Emitted × P2Outcome)
  | next (fs : FS) (st : ExtractState) (acc : List Emitted)
deriving DecidableEq

/-- The HXVF arm of the Extraction Pass (main.c lines 441-471): read the
declared payload into the buffer at the pending offset, abort on a short
read, withhold a parameter-set payload, otherwise emit buffer plus payload
and reset the offset. -/
def p2hxvf (p : MuxParams) (st : ExtractState) (acc : List Emitted)
    (br : List Nat × FS) : Step2 :=
  if br.1.length ≠ 12 then .stop (acc, .prematureEOF)
  else
    let len := leVal (br.1.take 4)
    let ts : Int := (leVal ((br.1.drop 4).take 4) : Int)
    let r := readToBuffer br.2 st.mem st.bsize st.boff len
    if r.readCount < len then .stop (acc, .prematureEOF)
    else if nalIsPS (r.mem[st.boff + 4]?) then
      .next r.fs ⟨r.mem, r.bsize, st.boff + r.readCount⟩ acc
    else
      .next r.fs ⟨r.mem, r.bsize, 0⟩
        (acc ++ [⟨.video, r.mem.take (r.readCount + st.boff), ts - p.video_ts_initial,
          scalePts (ts - p.video_ts_initial) p.qv⟩])

/-- The HXAF arm of the Extraction Pass (main.c lines 473-503): with an
audio stream, read length - 4 (uint32 wrap) bytes at offset 0 of the same
buffer and emit them; without one, seek past them. -/
def p2hxaf (p : MuxParams) (st : ExtractState) (acc : List Emitted)
    (br : List Nat × FS) : Step2 :=
  if br.1.length ≠ 16 then .stop (acc, .prematureEOF)
  else
    let len := leVal (br.1.take 4)
    let ts : Int := (leVal ((br.1.drop 4).take 4) : Int)
    if p.hasAudio then
      let r := readToBuffer br.2 st.mem st.bsize 0 (wrapSub4 len)
      if r.readCount < wrapSub4 len then .stop (acc, .prematureEOF)
      else
        .next r.fs ⟨r.mem, r.bsize, st.boff⟩
          (acc ++ [⟨.audio, r.mem.take r.readCount, ts - p.audio_ts_initial,
            scalePts (ts - p.audio_ts_initial) p.qa⟩])
    else .next (fseekCur (wrapSub4 len) br.2) st acc

/-- One body of the extraction do/while loop (main.c lines 426-513). -/
def pass2Step (p : MuxParams) (fs : FS) (st : ExtractState)
    (acc : List Emitted) : Step2 :=
  let hr := freadN 4 fs
  if hr.1.length ≠ 4 then .stop (acc, .prematureEOF)
  else
    let tag := leVal hr.1
    if tag = HXVS then .next (fseekCur 12 hr.2) st acc
    else if tag = HXVF then p2hxvf p st acc (freadN 12 hr.2)
    else if tag = HXAF then p2hxaf p st acc (freadN 16 hr.2)
    else if tag = HXFI then .stop (acc, .ok)
    else .next hr.2 st acc

/-- The extraction do/while loop, fuel-indexed, accumulating the packets
handed to the muxer in order; the loop condition !feof && !hxfi_detected
is evaluated after the body. -/
def pass2Go : Nat → MuxParams → FS → ExtractState → List Emitted →
    Option (List Emitted × P2Outcome)
  | 0, _, _, _, _ => none
  | fuel + 1, p, fs, st, acc =>
    match pass2Step p fs st acc with
    | .stop r => some r
    | .next fs2 st2 acc2 =>
      if fs2.eof then some (acc2, .ok) else pass2Go fuel p fs2 st2 acc2

/-- The Extraction Pass run on a whole input file from a rewound stream
and a fresh (NULL) packet buffer. -/
def pass2 (p : MuxParams) (bytes : List Nat) : Option (List Emitted × P2Outcome) :=
  pass2Go (bytes.length + 1) p ⟨bytes, false⟩ {} []

/-- Overall outcome of one run of the converter. -/
inductive RunResult where
  | prematureEOF
  | noVideoDetected
  | completed (audioStream : Bool) (emissions : List Emitted)
deriving DecidableEq

/-- The whole program on an input file: Inference Pass, the fatal
"No video detected" gate (main.c lines 301-304), audio stream creation
only when a positive sample rate was found and audio is not skipped
(lines 358-404), then the Extraction Pass against the rewound input. -/
def runProgram (skipAudio : Bool) (qv qa : Frac) (bytes : List Nat) :
    Option RunResult :=
  match pass1 bytes with
  | none => none
  | some .prematureEOF => some .prematureEOF
  | some (.ok st) =>
    if st.video_avg_frame_rate.num ≤ 0 then some .noVideoDetected
    else
      let hasAudio := !skipAudio && decide (0 < st.audio_avg_sample_rate.num)
      match pass2 ⟨hasAudio, st.video_ts_initial, st.audio_ts_initial, qv, qa⟩ bytes with
      | none => none
      | some (ems, .ok) => some (.completed hasAudio ems)
      | some (_, .prematureEOF) => some .prematureEOF

/-- A well-formed non-terminal packet of the container grammar (section 6
of the design: a tag, its fixed header, and the declared payload). -/
inductive Pkt where
  | hxvs (w h : Nat)
  | hxvf (ts : Nat) (payload : List Nat)
  | hxaf (ts : Nat) (samples : List Nat)
deriving DecidableEq

/-- Field bounds making a packet encodable in the 32-bit header fields.
For an audio packet the declared length is samples + 4 sub-header bytes. -/
def Pkt.wf : Pkt → Bool
  | .hxvs w h => w < 4294967296 && h < 4294967296
  | .hxvf ts p => ts < 4294967296 && p.length < 4294967296
  | .hxaf ts s => ts < 4294967296 && s.length + 4 < 4294967296

/-- On-disk bytes of a packet (little endian, layouts of
ipcamvideofilefmt.h: HXVS width/height/pad4; HXVF length/timestamp/pad4
then length payload bytes; HXAF length/timestamp/pad8 then length - 4
sample bytes). -/
def encPkt : Pkt → List Nat
  | .hxvs w h => le32 HXVS ++ (le32 w ++ le32 h ++ [0, 0, 0, 0]) ++ []
  | .hxvf ts p => le32 HXVF ++ (le32 p.length ++ le32 ts ++ [0, 0, 0, 0]) ++ p
  | .hxaf ts s => le32 HXAF ++ (le32 (s.length + 4) ++ le32 ts ++ [0, 0, 0, 0, 0, 0, 0, 0]) ++ s

/-- Bytes of a packet sequence. -/
def encStream (ps : List Pkt) : List Nat := (ps.map encPkt).flatten

/-- The end-of-stream marker: only its tag is ever read by main.c. -/
def encEnd : List Nat := le32 HXFI

/-- Per-packet state transformer of the Inference Pass (the effect of one
loop iteration of main.c lines 197-294 on the scan state). -/
def step1 (st : InferState) : Pkt → InferState
  | .hxvs w h => { st with video_w := some (toInt32 w), video_h := some (toInt32 h) }
  | .hxvf ts _ => videoTsUpdate (ts : Int) st
  | .hxaf ts s => audioTsUpdate (s.length + 4) (ts : Int) st

/-- The Inference Pass scan state after a packet sequence. -/
def infer (ps : List Pkt) : InferState := ps.foldl step1 {}

/-- Per-packet transformer of the Extraction Pass: the new coalescing
state and the packets handed to the muxer by this iteration. -/
def step2 (p : MuxParams) (st : ExtractState) : Pkt → ExtractState × List Emitted
  | .hxvs _ _ => (st, [])
  | .hxvf ts pl =>
    let r := readToBuffer ⟨pl, false⟩ st.mem st.bsize st.boff pl.length
    if nalIsPS (r.mem[st.boff + 4]?) then
      (⟨r.mem, r.bsize, st.boff + r.readCount⟩, [])
    else
      (⟨r.mem, r.bsize, 0⟩,
        [⟨.video, r.mem.take (r.readCount + st.boff), (ts : Int) - p.video_ts_initial,
          scalePts ((ts : Int) - p.video_ts_initial) p.qv⟩])
  | .hxaf ts s =>
    if p.hasAudio then
      let r := readToBuffer ⟨s, false⟩ st.mem st.bsize 0 (wrapSub4 (s.length + 4))
      (⟨r.mem, r.bsize, st.boff⟩,
        [⟨.audio, r.mem.take r.readCount, (ts : Int) - p.audio_ts_initial,
          scalePts ((ts : Int) - p.audio_ts_initial) p.qa⟩])
    else (st, [])

/-- The Extraction Pass over a packet sequence: final coalescing state and
all packets handed to the muxer, in order. -/
def run2 (p : MuxParams) (st : ExtractState) : List Pkt → ExtractState × List Emitted
  | [] => (st, [])
  | pk :: ps =>
    let r := step2 p st pk
    let rs := run2 p r.1 ps
    (rs.1, r.2 ++ rs.2)

lemma le32_length (n : Nat) : (le32 n).length = 4 := rfl

lemma leVal_le32 {n : Nat} (h : n < 4294967296) : leVal (le32 n) = n := by
  simp only [le32, leVal, List.foldr]
  omega

lemma freadN_exact {bs : List Nat} {n : Nat} (h : bs.length = n) (rest : List Nat)
    (e : Bool) : freadN n ⟨bs ++ rest, e⟩ = (bs, ⟨rest, e⟩) := by
  simp [freadN, List.take_left' h, List.drop_left' h, ← h]

lemma freadN_short {bs : List Nat} {n : Nat} (h : bs.length < n) (e : Bool) :
    freadN n ⟨bs, e⟩ = (bs, ⟨[], true⟩) := by
  simp [freadN]
  omega

lemma encPkt_length_ge (p : Pkt) : 16 ≤ (encPkt p).length := by
  cases p <;> simp [encPkt, le32]

lemma encStream_length_ge (ps : List Pkt) : ps.length ≤ (encStream ps).length := by
  induction ps with
  | nil => simp [encStream]
  | cons p ps ih =>
    have := encPkt_length_ge p
    simp only [encStream, List.map_cons, List.flatten_cons, List.length_append,
      List.length_cons] at *
    omega

lemma take4_le32 (a : Nat) (l : List Nat) : (le32 a ++ l).take 4 = le32 a :=
  List.take_left' (le32_length a)

lemma drop4_le32 (a : Nat) (l : List Nat) : (le32 a ++ l).drop 4 = l :=
  List.drop_left' (le32_length a)

lemma leVal_HXVS : leVal (le32 HXVS) = HXVS := by decide

lemma ne_HXVF_HXVS : ¬ HXVF = HXVS := by decide

lemma ne_HXAF_HXVS : ¬ HXAF = HXVS := by decide

lemma ne_HXAF_HXVF : ¬ HXAF = HXVF := by decide

lemma ne_HXFI_HXVS : ¬ HXFI = HXVS := by decide

lemma ne_HXFI_HXVF : ¬ HXFI = HXVF := by decide

lemma ne_HXFI_HXAF : ¬ HXFI = HXAF := by decide

lemma ne_HXVT_HXVS : ¬ HXVT = HXVS := by decide

lemma ne_HXVT_HXVF : ¬ HXVT = HXVF := by decide

lemma ne_HXVT_HXAF : ¬ HXVT = HXAF := by decide

lemma ne_HXVT_HXFI : ¬ HXVT = HXFI := by decide

lemma leVal_HXVF : leVal (le32 HXVF) = HXVF := by decide

lemma leVal_HXAF : leVal (le32 HXAF) = HXAF := by decide

lemma leVal_HXFI : leVal (le32 HXFI) = HXFI := by decide

lemma freadN12 (a b : Nat) (z rest : List Nat) (hz : z.length = 4) (e : Bool) :
    freadN 12 ⟨le32 a ++ (le32 b ++ (z ++ rest)), e⟩
      = (le32 a ++ (le32 b ++ z), ⟨rest, e⟩) := by
  have hlen : (le32 a ++ (le32 b ++ z)).length = 12 := by
    simp [le32_length, hz]
  have := freadN_exact hlen rest e
  simpa [List.append_assoc] using this

lemma freadN16 (a b : Nat) (z rest : List Nat) (hz : z.length = 8) (e : Bool) :
    freadN 16 ⟨le32 a ++ (le32 b ++ (z ++ rest)), e⟩
      = (le32 a ++ (le32 b ++ z), ⟨rest, e⟩) := by
  have hlen : (le32 a ++ (le32 b ++ z)).length = 16 := by
    simp [le32_length, hz]
  have := freadN_exact hlen rest e
  simpa [List.append_assoc] using this

/-- One Inference Pass iteration on a complete encoded packet consumes
exactly that packet and applies its per-packet state update. -/
lemma pass1_consume (pk : Pkt) (hwf : pk.wf = true) (fuel : Nat) (rest : List Nat)
    (st : InferState) :
    pass1Go (fuel + 1) ⟨encPkt pk ++ rest, false⟩ st
      = pass1Go fuel ⟨rest, false⟩ (step1 st pk) := by
  cases pk with
  | hxvs w h =>
    simp only [Pkt.wf, Bool.and_eq_true, decide_eq_true_eq] at hwf
    obtain ⟨hw, hh⟩ := hwf
    simp only [encPkt, List.append_assoc, List.nil_append, pass1Go]
    rw [freadN_exact (le32_length HXVS)]
    simp only [le32_length, leVal_HXVS, step1]
    rw [freadN12 w h [0, 0, 0, 0] rest rfl false]
    simp [take4_le32, drop4_le32, leVal_le32 hw, leVal_le32 hh, le32_length]
  | hxvf ts p =>
    simp only [Pkt.wf, Bool.and_eq_true, decide_eq_true_eq] at hwf
    obtain ⟨hts, hp⟩ := hwf
    simp only [encPkt, List.append_assoc, pass1Go]
    rw [freadN_exact (le32_length HXVF)]
    simp only [le32_length, leVal_HXVF, step1]
    rw [freadN12 p.length ts [0, 0, 0, 0] (p ++ rest) rfl false]
    simp [take4_le32, drop4_le32, leVal_le32 hts, leVal_le32 hp, fseekCur,
      List.drop_left, le32_length, ne_HXVF_HXVS]
  | hxaf ts s =>
    simp only [Pkt.wf, Bool.and_eq_true, decide_eq_true_eq] at hwf
    obtain ⟨hts, hs⟩ := hwf
    have hws : wrapSub4 (s.length + 4) = s.length := by
      simp only [wrapSub4]
      omega
    simp only [encPkt, List.append_assoc, pass1Go]
    rw [freadN_exact (le32_length HXAF)]
    simp only [le32_length, leVal_HXAF, step1]
    rw [freadN16 (s.length + 4) ts [0, 0, 0, 0, 0, 0, 0, 0] (s ++ rest) rfl false]
    simp [take4_le32, drop4_le32, leVal_le32 hts, leVal_le32 hs, fseekCur, hws,
      List.drop_left, le32_length, ne_HXAF_HXVS, ne_HXAF_HXVF]

lemma encStream_cons (p : Pkt) (ps : List Pkt) :
    encStream (p :: ps) = encPkt p ++ encStream ps := by
  simp [encStream]

/-- At physical end of file the next header fread comes up short and the
Inference Pass exits through the "Premature end of file" branch. -/
lemma pass1_end_empty (fuel : Nat) (st : InferState) :
    pass1Go (fuel + 1) ⟨[], false⟩ st = some .prematureEOF := by
  simp [pass1Go, freadN]

/-- An end-of-stream tag terminates the Inference Pass normally; only its
four tag bytes are consumed. -/
lemma pass1_end_hxfi (fuel : Nat) (junk : List Nat) (st : InferState) :
    pass1Go (fuel + 1) ⟨le32 HXFI ++ junk, false⟩ st = some (.ok st) := by
  simp only [pass1Go]
  rw [freadN_exact (le32_length HXFI)]
  simp [le32_length, leVal_HXFI, ne_HXFI_HXVS, ne_HXFI_HXVF, ne_HXFI_HXAF]

/-- The Inference Pass walks an encoded packet sequence by folding the
per-packet update over it. -/
lemma pass1Go_stream (ps : List Pkt) (hwf : ∀ p ∈ ps, p.wf = true) (fuel : Nat)
    (rest : List Nat) (st : InferState) :
    pass1Go (ps.length + fuel) ⟨encStream ps ++ rest, false⟩ st
      = pass1Go fuel ⟨rest, false⟩ (ps.foldl step1 st) := by
  induction ps generalizing st with
  | nil => simp [encStream]
  | cons p ps ih =>
    have h1 : p.wf = true := hwf p (by simp)
    have h2 : ∀ q ∈ ps, q.wf = true := fun q hq => hwf q (by simp [hq])
    rw [encStream_cons, List.append_assoc]
    have hlen : (p :: ps).length + fuel = (ps.length + fuel) + 1 := by
      simp only [List.length_cons]
      omega
    rw [hlen, pass1_consume p h1, ih h2, List.foldl_cons]

/-- The Inference Pass on a file that starts with an encoded packet
sequence: after the sequence only the remainder is left, with enough fuel
to finish it. -/
lemma pass1_encoded (ps : List Pkt) (hwf : ∀ p ∈ ps, p.wf = true) (rest : List Nat) :
    pass1 (encStream ps ++ rest)
      = pass1Go (rest.length + ((encStream ps).length - ps.length) + 1)
          ⟨rest, false⟩ (ps.foldl step1 {}) := by
  have hge := encStream_length_ge ps
  have hlen : (encStream ps ++ rest).length + 1
      = ps.length + (rest.length + ((encStream ps).length - ps.length) + 1) := by
    simp only [List.length_append]
    omega
  rw [pass1, hlen, pass1Go_stream ps hwf]

/-- Well-formed packets with no end marker: the Inference Pass ends in the
fatal premature-end-of-file exit, never in normal completion. -/
lemma pass1_stream_noend (ps : List Pkt) (hwf : ∀ p ∈ ps, p.wf = true) :
    pass1 (encStream ps) = some .prematureEOF := by
  have h := pass1_encoded ps hwf []
  rw [List.append_nil] at h
  rw [h, pass1_end_empty]

/-- Well-formed packets followed by the end marker: the Inference Pass
completes normally with the folded scan state. -/
lemma pass1_stream_end (ps : List Pkt) (hwf : ∀ p ∈ ps, p.wf = true)
    (junk : List Nat) :
    pass1 (encStream ps ++ (encEnd ++ junk)) = some (.ok (infer ps)) := by
  rw [pass1_encoded ps hwf (encEnd ++ junk)]
  exact pass1_end_hxfi _ junk _

lemma drop12_le32 (a b : Nat) (z rest : List Nat) (hz : z.length = 4) :
    (le32 a ++ (le32 b ++ (z ++ rest))).drop 12 = rest := by
  have h : ((le32 a ++ (le32 b ++ z)) ++ rest).drop 12 = rest :=
    List.drop_left' (by simp [le32_length, hz])
  simpa [List.append_assoc] using h

/-- Reading a payload that is fully present consumes exactly the payload;
the buffer effect does not depend on what follows in the stream. -/
lemma readToBuffer_split (pl rest : List Nat) (e : Bool) (m : List (Option Nat))
    (b o : Nat) :
    readToBuffer ⟨pl ++ rest, e⟩ m b o pl.length
      = ⟨(readToBuffer ⟨pl, e⟩ m b o pl.length).readCount,
         (readToBuffer ⟨pl, e⟩ m b o pl.length).mem,
         (readToBuffer ⟨pl, e⟩ m b o pl.length).bsize, ⟨rest, e⟩⟩ := by
  by_cases h : pl.length = 0
  · have hnil : pl = [] := List.eq_nil_of_length_eq_zero h
    subst hnil
    simp [readToBuffer]
  · have h2 : freadN pl.length ⟨pl, e⟩ = (pl, ⟨[], e⟩) := by
      have := @freadN_exact pl _ rfl [] e
      simpa using this
    simp only [readToBuffer, if_neg h]
    rw [freadN_exact rfl rest e, h2]

lemma readToBuffer_full (pl : List Nat) (e : Bool) (m : List (Option Nat)) (b o : Nat) :
    (readToBuffer ⟨pl, e⟩ m b o pl.length).readCount = pl.length := by
  by_cases h : pl.length = 0
  · simp [readToBuffer, h]
  · have h2 : freadN pl.length ⟨pl, e⟩ = (pl, ⟨[], e⟩) := by
      have := @freadN_exact pl _ rfl [] e
      simpa using this
    simp only [readToBuffer, if_neg h]
    rw [h2]

/-- One Extraction Pass loop body on a complete encoded packet consumes
exactly that packet, applies its coalescing-state update and appends its
emissions. -/
lemma pass2Step_encoded (pk : Pkt) (hwf : pk.wf = true) (rest : List Nat)
    (p : MuxParams) (st : ExtractState) (acc : List Emitted) :
    pass2Step p ⟨encPkt pk ++ rest, false⟩ st acc
      = .next ⟨rest, false⟩ (step2 p st pk).1 (acc ++ (step2 p st pk).2) := by
  cases pk with
  | hxvs w h =>
    simp only [encPkt, List.append_assoc, List.nil_append, pass2Step]
    rw [freadN_exact (le32_length HXVS)]
    simp only [le32_length, leVal_HXVS, step2, fseekCur,
      drop12_le32 w h [0, 0, 0, 0] rest rfl]
    simp
  | hxvf ts pl =>
    simp only [Pkt.wf, Bool.and_eq_true, decide_eq_true_eq] at hwf
    obtain ⟨hts, hp⟩ := hwf
    simp only [encPkt, List.append_assoc, pass2Step]
    rw [freadN_exact (le32_length HXVF)]
    simp only [le32_length, leVal_HXVF]
    rw [freadN12 pl.length ts [0, 0, 0, 0] (pl ++ rest) rfl false]
    simp only [p2hxvf, take4_le32, drop4_le32, leVal_le32 hts, leVal_le32 hp]
    rw [readToBuffer_split pl rest false st.mem st.bsize st.boff]
    by_cases hn : nalIsPS ((readToBuffer ⟨pl, false⟩ st.mem st.bsize st.boff pl.length).mem[st.boff + 4]?)
    · simp [hn, step2, readToBuffer_full, ne_HXVF_HXVS, le32_length]
    · simp [hn, step2, readToBuffer_full, ne_HXVF_HXVS, le32_length]
  | hxaf ts s =>
    simp only [Pkt.wf, Bool.and_eq_true, decide_eq_true_eq] at hwf
    obtain ⟨hts, hs⟩ := hwf
    have hws : wrapSub4 (s.length + 4) = s.length := by
      simp only [wrapSub4]
      omega
    simp only [encPkt, List.append_assoc, pass2Step]
    rw [freadN_exact (le32_length HXAF)]
    simp only [le32_length, leVal_HXAF]
    rw [freadN16 (s.length + 4) ts [0, 0, 0, 0, 0, 0, 0, 0] (s ++ rest) rfl false]
    simp only [p2hxaf, take4_le32, drop4_le32, leVal_le32 hts, leVal_le32 hs, hws]
    by_cases ha : p.hasAudio
    · rw [readToBuffer_split s rest false st.mem st.bsize 0]
      simp [ha, step2, readToBuffer_full, ne_HXAF_HXVS, ne_HXAF_HXVF, hws, le32_length]
    · simp [ha, step2, fseekCur, List.drop_left, ne_HXAF_HXVS, ne_HXAF_HXVF, hws,
        le32_length]

/-- One Extraction Pass iteration on a complete encoded packet. -/
lemma pass2_consume (pk : Pkt) (hwf : pk.wf = true) (fuel : Nat) (rest : List Nat)
    (p : MuxParams) (st : ExtractState) (acc : List Emitted) :
    pass2Go (fuel + 1) p ⟨encPkt pk ++ rest, false⟩ st acc
      = pass2Go fuel p ⟨rest, false⟩ (step2 p st pk).1 (acc ++ (step2 p st pk).2) := by
  simp only [pass2Go, pass2Step_encoded pk hwf rest p st acc]
  simp

/-- At physical end of file the next header fread of the Extraction Pass
comes up short and the pass exits through "Premature end of file". -/
lemma pass2_end_empty (fuel : Nat) (p : MuxParams) (st : ExtractState)
    (acc : List Emitted) :
    pass2Go (fuel + 1) p ⟨[], false⟩ st acc = some (acc, .prematureEOF) := by
  simp [pass2Go, pass2Step, freadN]

/-- An end-of-stream tag terminates the Extraction Pass normally. -/
lemma pass2_end_hxfi (fuel : Nat) (junk : List Nat) (p : MuxParams)
    (st : ExtractState) (acc : List Emitted) :
    pass2Go (fuel + 1) p ⟨le32 HXFI ++ junk, false⟩ st acc = some (acc, .ok) := by
  simp only [pass2Go, pass2Step]
  rw [freadN_exact (le32_length HXFI)]
  simp [le32_length, leVal_HXFI, ne_HXFI_HXVS, ne_HXFI_HXVF, ne_HXFI_HXAF]

/-- The Extraction Pass walks an encoded packet sequence by the per-packet
transformer, concatenating emissions in order. -/
lemma pass2Go_stream (ps : List Pkt) (hwf : ∀ q ∈ ps, q.wf = true) (fuel : Nat)
    (rest : List Nat) (p : MuxParams) (st : ExtractState) (acc : List Emitted) :
    pass2Go (ps.length + fuel) p ⟨encStream ps ++ rest, false⟩ st acc
      = pass2Go fuel p ⟨rest, false⟩ (run2 p st ps).1 (acc ++ (run2 p st ps).2) := by
  induction ps generalizing st acc with
  | nil => simp [encStream, run2]
  | cons pk ps ih =>
    have h1 : pk.wf = true := hwf pk (by simp)
    have h2 : ∀ q ∈ ps, q.wf = true := fun q hq => hwf q (by simp [hq])
    rw [encStream_cons, List.append_assoc]
    have hlen : (pk :: ps).length + fuel = (ps.length + fuel) + 1 := by
      simp only [List.length_cons]
      omega
    rw [hlen, pass2_consume pk h1, ih h2]
    simp [run2, List.append_assoc]

/-- The Extraction Pass on a file that starts with an encoded packet
sequence. -/
lemma pass2_encoded (ps : List Pkt) (hwf : ∀ q ∈ ps, q.wf = true)
    (rest : List Nat) (p : MuxParams) :
    pass2 p (encStream ps ++ rest)
      = pass2Go (rest.length + ((encStream ps).length - ps.length) + 1)
          p ⟨rest, false⟩ (run2 p {} ps).1 ((run2 p {} ps).2) := by
  have hge := encStream_length_ge ps
  have hlen : (encStream ps ++ rest).length + 1
      = ps.length + (rest.length + ((encStream ps).length - ps.length) + 1) := by
    simp only [List.length_append]
    omega
  rw [pass2, hlen, pass2Go_stream ps hwf]
  simp

/-- Well-formed packets followed by the end marker: the Extraction Pass
completes normally with exactly the per-packet emissions. -/
lemma pass2_stream_end (ps : List Pkt) (hwf : ∀ q ∈ ps, q.wf = true)
    (junk : List Nat) (p : MuxParams) :
    pass2 p (encStream ps ++ (encEnd ++ junk)) = some ((run2 p {} ps).2, .ok) := by
  rw [pass2_encoded ps hwf (encEnd ++ junk) p]
  exact pass2_end_hxfi _ junk _ _ _

lemma writeMem_eq_zero (m : List (Option Nat)) (bs : List Nat) :
    writeMem m 0 bs = bs.map some ++ m.drop bs.length := by
  simp [writeMem]

lemma writeMem_take_zero (m : List (Option Nat)) (bs : List Nat) :
    (writeMem m 0 bs).take bs.length = bs.map some := by
  rw [writeMem_eq_zero]
  exact List.take_left' (by simp)

lemma map_some_getElem (bs : List Nat) (i : Nat) (h : i < bs.length) :
    (bs.map some)[i]? = some (some (bs.getD i 0)) := by
  rw [List.getD_eq_getElem?_getD, List.getElem?_eq_getElem h]
  simp [List.getElem?_eq_getElem, h]

lemma writeMem_getElem (m : List (Option Nat)) (off i : Nat) (bs : List Nat)
    (h : i < bs.length) :
    (writeMem m off bs)[off + i]? = some (some (bs.getD i 0)) := by
  have hfront : (m.take off ++ List.replicate (off - m.length) (none : Option Nat)).length
      = off := by
    simp only [List.length_append, List.length_take, List.length_replicate]
    omega
  have hsplit : writeMem m off bs
      = (m.take off ++ List.replicate (off - m.length) (none : Option Nat)) ++
          (bs.map some ++ m.drop (off + bs.length)) := by
    simp [writeMem, List.append_assoc]
  rw [hsplit, List.getElem?_append_right (by omega), hfront]
  have hi : off + i - off = i := by omega
  rw [hi, List.getElem?_append_left (by simpa using h), map_some_getElem bs i h]

/-- ReadToBuffer of a fully present payload from the clean coalescing state
in which the buffer holds exactly the withheld bytes: the payload is
appended after them. -/
lemma readToBuffer_clean (A pl : List Nat) (hpl : pl ≠ []) :
    readToBuffer ⟨pl, false⟩ (A.map some) A.length A.length pl.length
      = ⟨pl.length, (A ++ pl).map some, pl.length + A.length, ⟨[], false⟩⟩ := by
  have hlen0 : ¬ pl.length = 0 := by simpa using hpl
  have hread : freadN pl.length ⟨pl, false⟩ = (pl, ⟨[], false⟩) := by
    have := @freadN_exact pl _ rfl [] false
    simpa using this
  by_cases hA : A = []
  · subst hA
    simp only [readToBuffer, if_neg hlen0, List.map_nil, List.length_nil]
    rw [hread]
    simp [writeMem, List.map_take, List.take_of_length_le, List.drop_of_length_le]
  · have hAne : (A.map some) ≠ [] := by simpa using hA
    have hAlen : A.length ≠ 0 := by simpa using hA
    simp only [readToBuffer, if_neg hlen0]
    rw [hread]
    have hcond : (A.map some ≠ [] ∧ A.length < pl.length + A.length) := by
      exact ⟨hAne, by omega⟩
    rw [if_pos hcond, if_pos hAlen]
    have hresize : resizeMem (A.map some) (pl.length + A.length)
        = A.map some ++ List.replicate pl.length (none : Option Nat) := by
      simp only [resizeMem, List.length_map]
      rw [List.take_of_length_le (by simp)]
      have hsub : pl.length + A.length - A.length = pl.length := by omega
      rw [hsub]
    rw [hresize]
    have hne2 : A.map some ++ List.replicate pl.length (none : Option Nat) ≠ [] := by
      simp [hA]
    rw [if_neg hne2]
    have hmem : writeMem (A.map some ++ List.replicate pl.length (none : Option Nat))
        A.length pl = (A ++ pl).map some := by
      simp only [writeMem]
      rw [List.take_left' (by simp)]
      rw [List.drop_of_length_le (by simp [Nat.add_comm])]
      have hz : A.length
          - (A.map some ++ List.replicate pl.length (none : Option Nat)).length = 0 := by
        simp
      rw [hz]
      simp [List.map_append]
    rw [hmem]

lemma writeMem_getElem_zero (m : List (Option Nat)) (bs : List Nat)
    (h : 4 < bs.length) :
    (writeMem m 0 bs)[(4 : Nat)]? = some (some (bs.getD 4 0)) := by
  have := writeMem_getElem m 0 4 bs h
  simpa using this

lemma readToBuffer_nal_zero (m : List (Option Nat)) (b : Nat) (pl : List Nat)
    (h4 : 4 < pl.length) :
    (readToBuffer ⟨pl, false⟩ m b 0 pl.length).mem[(4 : Nat)]?
      = some (some (pl.getD 4 0)) := by
  have hlen0 : ¬ pl.length = 0 := by omega
  have hread : freadN pl.length ⟨pl, false⟩ = (pl, ⟨[], false⟩) := by
    have := @freadN_exact pl _ rfl [] false
    simpa using this
  simp only [readToBuffer, if_neg hlen0]
  rw [hread]
  exact writeMem_getElem_zero _ pl h4

lemma readToBuffer_take_zero (m : List (Option Nat)) (b : Nat) (pl : List Nat) :
    (readToBuffer ⟨pl, false⟩ m b 0 pl.length).mem.take pl.length = pl.map some := by
  by_cases hlen0 : pl.length = 0
  · have : pl = [] := List.eq_nil_of_length_eq_zero hlen0
    subst this
    simp [readToBuffer]
  · have hread : freadN pl.length ⟨pl, false⟩ = (pl, ⟨[], false⟩) := by
      have := @freadN_exact pl _ rfl [] false
      simpa using this
    simp only [readToBuffer, if_neg hlen0]
    rw [hread]
    exact writeMem_take_zero _ pl

lemma readToBuffer_bsize (fs : FS) (m : List (Option Nat)) (b o n : Nat)
    (hn : n ≠ 0) : (readToBuffer fs m b o n).bsize = n + o := by
  simp [readToBuffer, hn]

/-- An access-unit video payload processed with no withheld bytes: emitted
alone, as exactly its own bytes, leaving the offset at zero. -/
lemma step2_video_au_boff0 (p : MuxParams) (m : List (Option Nat)) (b : Nat)
    (ts : Nat) (pl : List Nat) (h5 : 5 ≤ pl.length)
    (h7 : ¬ pl.getD 4 0 % 32 = 7) (h8 : ¬ pl.getD 4 0 % 32 = 8) :
    (step2 p ⟨m, b, 0⟩ (.hxvf ts pl)).1.boff = 0 ∧
    (step2 p ⟨m, b, 0⟩ (.hxvf ts pl)).2
      = [⟨.video, pl.map some, (ts : Int) - p.video_ts_initial,
          scalePts ((ts : Int) - p.video_ts_initial) p.qv⟩] := by
  have h4 : 4 < pl.length := by omega
  have hnal : nalIsPS ((readToBuffer ⟨pl, false⟩ m b 0 pl.length).mem[(0 : Nat) + 4]?)
      = false := by
    have h04 : (0 : Nat) + 4 = 4 := by omega
    rw [h04, readToBuffer_nal_zero m b pl h4]
    simp only [nalIsPS, Bool.or_eq_false_iff, beq_eq_false_iff_ne, ne_eq]
    exact ⟨h7, h8⟩
  constructor
  · simp [step2, hnal]
  · simp only [step2, hnal, Bool.false_eq_true, if_false]
    rw [readToBuffer_full pl false m b 0]
    simp [readToBuffer_take_zero m b pl]

/-- An audio payload with an established audio stream: emitted as exactly
its own sample bytes; packet_buffer_offset is left untouched. -/
lemma step2_audio_has (p : MuxParams) (m : List (Option Nat)) (b o : Nat)
    (ts : Nat) (s : List Nat) (ha : p.hasAudio = true)
    (hs : s.length + 4 < 4294967296) :
    (step2 p ⟨m, b, o⟩ (.hxaf ts s)).1.boff = o ∧
    (step2 p ⟨m, b, o⟩ (.hxaf ts s)).2
      = [⟨.audio, s.map some, (ts : Int) - p.audio_ts_initial,
          scalePts ((ts : Int) - p.audio_ts_initial) p.qa⟩] := by
  have hws : wrapSub4 (s.length + 4) = s.length := by
    simp only [wrapSub4]
    omega
  by_cases hnil : s = []
  · subst hnil
    have h40 : wrapSub4 4 = 0 := by decide
    simp [step2, ha, h40, readToBuffer]
  · have hlen0 : ¬ s.length = 0 := by simpa using hnil
    constructor
    · simp [step2, ha, hws, readToBuffer_full]
    · simp only [step2, ha, hws, if_true]
      rw [readToBuffer_full s false m b 0]
      simp [readToBuffer_take_zero m b s]

/-- The packet the Extraction Pass hands to the muxer for one source
packet, when no coalescing is pending: video and audio frames emit their
own payload bytes rebased to the stream reference; size descriptors and
audio frames without an audio stream emit nothing. -/
def emitSpec (p : MuxParams) : Pkt → Option Emitted
  | .hxvs _ _ => none
  | .hxvf ts pl => some ⟨.video, pl.map some, (ts : Int) - p.video_ts_initial,
      scalePts ((ts : Int) - p.video_ts_initial) p.qv⟩
  | .hxaf ts s =>
    if p.hasAudio then
      some ⟨.audio, s.map some, (ts : Int) - p.audio_ts_initial,
        scalePts ((ts : Int) - p.audio_ts_initial) p.qa⟩
    else none

/-- Video payloads that carry an access unit: at least the start code plus
the NAL byte, whose low five bits are not a parameter-set code. -/
def auVideo : Pkt → Bool
  | .hxvf _ pl =>
    decide (5 ≤ pl.length) && !(pl.getD 4 0 % 32 == 7) && !(pl.getD 4 0 % 32 == 8)
  | _ => true

/-- On access-unit-only video content the Extraction Pass keeps the
coalescing offset at zero and hands over exactly one packet per frame, in
source order, with the per-packet bytes and timestamps of emitSpec. -/
lemma run2_spec (p : MuxParams) (ps : List Pkt) (hwf : ∀ q ∈ ps, q.wf = true)
    (hau : ∀ q ∈ ps, auVideo q = true) :
    ∀ st : ExtractState, st.boff = 0 →
      (run2 p st ps).1.boff = 0 ∧ (run2 p st ps).2 = ps.filterMap (emitSpec p) := by
  induction ps with
  | nil => intro st hb; simpa [run2] using hb
  | cons pk ps ih =>
    intro st hb
    have h2wf : ∀ q ∈ ps, q.wf = true := fun q hq => hwf q (by simp [hq])
    have h2au : ∀ q ∈ ps, auVideo q = true := fun q hq => hau q (by simp [hq])
    obtain ⟨m, b, o⟩ := st
    simp only [ExtractState.boff] at hb
    subst hb
    have hstep : (step2 p ⟨m, b, 0⟩ pk).1.boff = 0 ∧
        (step2 p ⟨m, b, 0⟩ pk).2 = (emitSpec p pk).toList := by
      cases pk with
      | hxvs w h => simp [step2, emitSpec]
      | hxvf ts pl =>
        have := hau (.hxvf ts pl) (by simp)
        simp only [auVideo, Bool.and_eq_true, Bool.not_eq_true', beq_eq_false_iff_ne,
          ne_eq, decide_eq_true_eq] at this
        obtain ⟨⟨h5, h7⟩, h8⟩ := this
        have := step2_video_au_boff0 p m b ts pl h5 h7 h8
        simp [this.1, this.2, emitSpec]
      | hxaf ts s =>
        have hwfa := hwf (.hxaf ts s) (by simp)
        simp only [Pkt.wf, Bool.and_eq_true, decide_eq_true_eq] at hwfa
        by_cases ha : p.hasAudio
        · have := step2_audio_has p m b 0 ts s ha hwfa.2
          simp [this.1, this.2, emitSpec, ha]
        · simp [step2, emitSpec, ha]
    obtain ⟨hb2, he2⟩ := hstep
    have hnext := ih h2wf h2au (step2 p ⟨m, b, 0⟩ pk).1 hb2
    constructor
    · simp only [run2]
      exact hnext.1
    · simp only [run2, he2, hnext.2, List.filterMap_cons]
      cases h : emitSpec p pk <;> simp [h, Option.toList]

/-- Raw timestamp of a video-frame packet. -/
def Pkt.vts : Pkt → Option Nat
  | .hxvf ts _ => some ts
  | _ => none

/-- Raw timestamp of an audio-frame packet. -/
def Pkt.ats : Pkt → Option Nat
  | .hxaf ts _ => some ts
  | _ => none

/-- The raw timestamp of the first video-frame packet, as the long value
video_ts_initial takes (-1 when there is none). -/
def firstVideoTs (ps : List Pkt) : Int :=
  match ps.filterMap Pkt.vts with
  | [] => -1
  | t :: _ => (t : Int)

/-- The raw timestamp of the first audio-frame packet. -/
def firstAudioTs (ps : List Pkt) : Int :=
  match ps.filterMap Pkt.ats with
  | [] => -1
  | t :: _ => (t : Int)

lemma audioTsUpdate_vinit (len : Nat) (ts : Int) (st : InferState) :
    (audioTsUpdate len ts st).video_ts_initial = st.video_ts_initial := by
  simp only [audioTsUpdate]
  split
  · rfl
  · split <;> rfl

lemma audioTsUpdate_vrate (len : Nat) (ts : Int) (st : InferState) :
    (audioTsUpdate len ts st).video_avg_frame_rate = st.video_avg_frame_rate := by
  simp only [audioTsUpdate]
  split
  · rfl
  · split <;> rfl

lemma videoTsUpdate_ainit (ts : Int) (st : InferState) :
    (videoTsUpdate ts st).audio_ts_initial = st.audio_ts_initial := by
  simp only [videoTsUpdate]
  split
  · rfl
  · split <;> rfl

lemma videoTsUpdate_arate (ts : Int) (st : InferState) :
    (videoTsUpdate ts st).audio_avg_sample_rate = st.audio_avg_sample_rate := by
  simp only [videoTsUpdate]
  split
  · rfl
  · split <;> rfl

lemma videoTsUpdate_vinit_keep (ts : Int) (st : InferState)
    (h : ¬ st.video_ts_initial = -1) :
    (videoTsUpdate ts st).video_ts_initial = st.video_ts_initial := by
  simp only [videoTsUpdate, if_neg h]
  split <;> rfl

lemma audioTsUpdate_ainit_keep (len : Nat) (ts : Int) (st : InferState)
    (h : ¬ st.audio_ts_initial = -1) :
    (audioTsUpdate len ts st).audio_ts_initial = st.audio_ts_initial := by
  simp only [audioTsUpdate, if_neg h]
  split <;> rfl

lemma step1_vinit_keep (pk : Pkt) (st : InferState)
    (h : ¬ st.video_ts_initial = -1) :
    (step1 st pk).video_ts_initial = st.video_ts_initial := by
  cases pk with
  | hxvs w hh => rfl
  | hxvf ts pl => exact videoTsUpdate_vinit_keep _ st h
  | hxaf ts s => exact audioTsUpdate_vinit _ _ st

lemma step1_ainit_keep (pk : Pkt) (st : InferState)
    (h : ¬ st.audio_ts_initial = -1) :
    (step1 st pk).audio_ts_initial = st.audio_ts_initial := by
  cases pk with
  | hxvs w hh => rfl
  | hxvf ts pl => exact videoTsUpdate_ainit _ st
  | hxaf ts s => exact audioTsUpdate_ainit_keep _ _ st h

lemma foldl_vinit_keep (ps : List Pkt) (st : InferState)
    (h : ¬ st.video_ts_initial = -1) :
    (ps.foldl step1 st).video_ts_initial = st.video_ts_initial := by
  induction ps generalizing st with
  | nil => rfl
  | cons pk ps ih =>
    rw [List.foldl_cons, ih _ (by rw [step1_vinit_keep pk st h]; exact h),
      step1_vinit_keep pk st h]

lemma foldl_ainit_keep (ps : List Pkt) (st : InferState)
    (h : ¬ st.audio_ts_initial = -1) :
    (ps.foldl step1 st).audio_ts_initial = st.audio_ts_initial := by
  induction ps generalizing st with
  | nil => rfl
  | cons pk ps ih =>
    rw [List.foldl_cons, ih _ (by rw [step1_ainit_keep pk st h]; exact h),
      step1_ainit_keep pk st h]

lemma natCast_ne_negOne (n : Nat) : ¬ (n : Int) = -1 := by
  omega

/-- The Inference Pass establishes video_ts_initial at the raw timestamp of
the first video-frame packet (section 3, Timestamp Reference). -/
lemma foldl_vinit (ps : List Pkt) (st : InferState)
    (h : st.video_ts_initial = -1) :
    (ps.foldl step1 st).video_ts_initial = firstVideoTs ps := by
  induction ps generalizing st with
  | nil => simpa [firstVideoTs] using h
  | cons pk ps ih =>
    cases pk with
    | hxvs w hh =>
      rw [List.foldl_cons]
      have : (step1 st (.hxvs w hh)).video_ts_initial = -1 := h
      rw [ih _ this]
      simp [firstVideoTs, Pkt.vts, List.filterMap_cons]
    | hxvf ts pl =>
      rw [List.foldl_cons]
      have hset : (step1 st (.hxvf ts pl)).video_ts_initial = (ts : Int) := by
        simp [step1, videoTsUpdate, h]
      rw [foldl_vinit_keep ps _ (by rw [hset]; exact natCast_ne_negOne ts), hset]
      simp [firstVideoTs, Pkt.vts, List.filterMap_cons]
    | hxaf ts s =>
      rw [List.foldl_cons]
      have : (step1 st (.hxaf ts s)).audio_ts_initial = -1 ∨ True := Or.inr trivial
      have hkeep : (step1 st (.hxaf ts s)).video_ts_initial = -1 := by
        rw [step1, audioTsUpdate_vinit]
        exact h
      rw [ih _ hkeep]
      simp [firstVideoTs, Pkt.ats, Pkt.vts, List.filterMap_cons]

/-- The Inference Pass establishes audio_ts_initial at the raw timestamp of
the first audio-frame packet. -/
lemma foldl_ainit (ps : List Pkt) (st : InferState)
    (h : st.audio_ts_initial = -1) :
    (ps.foldl step1 st).audio_ts_initial = firstAudioTs ps := by
  induction ps generalizing st with
  | nil => simpa [firstAudioTs] using h
  | cons pk ps ih =>
    cases pk with
    | hxvs w hh =>
      rw [List.foldl_cons]
      have : (step1 st (.hxvs w hh)).audio_ts_initial = -1 := h
      rw [ih _ this]
      simp [firstAudioTs, Pkt.ats, List.filterMap_cons]
    | hxvf ts pl =>
      rw [List.foldl_cons]
      have hkeep : (step1 st (.hxvf ts pl)).audio_ts_initial = -1 := by
        rw [step1, videoTsUpdate_ainit]
        exact h
      rw [ih _ hkeep]
      simp [firstAudioTs, Pkt.vts, Pkt.ats, List.filterMap_cons]
    | hxaf ts s =>
      rw [List.foldl_cons]
      have hset : (step1 st (.hxaf ts s)).audio_ts_initial = (ts : Int) := by
        simp [step1, audioTsUpdate, h]
      rw [foldl_ainit_keep ps _ (by rw [hset]; exact natCast_ne_negOne ts), hset]
      simp [firstAudioTs, Pkt.ats, List.filterMap_cons]

/-- Whether a packet is a video frame. -/
def Pkt.isVideo : Pkt → Bool
  | .hxvf _ _ => true
  | _ => false

/-- A scan over video-frame packets only never touches the audio running
rate. -/
lemma foldl_arate_videoOnly (ps : List Pkt) (st : InferState)
    (h : ∀ q ∈ ps, q.isVideo = true) :
    (ps.foldl step1 st).audio_avg_sample_rate = st.audio_avg_sample_rate := by
  induction ps generalizing st with
  | nil => rfl
  | cons pk ps ih =>
    cases pk with
    | hxvs w hh => exact absurd (h (.hxvs w hh) (by simp)) (by simp [Pkt.isVideo])
    | hxaf ts s => exact absurd (h (.hxaf ts s) (by simp)) (by simp [Pkt.isVideo])
    | hxvf ts pl =>
      rw [List.foldl_cons]
      rw [ih _ (fun q hq => h q (by simp [hq]))]
      exact videoTsUpdate_arate _ st

/-- A scan with no video-frame packet never touches the video running
rate. -/
lemma foldl_vrate_noVideo (ps : List Pkt) (st : InferState)
    (h : ∀ q ∈ ps, Pkt.vts q = none) :
    (ps.foldl step1 st).video_avg_frame_rate = st.video_avg_frame_rate := by
  induction ps generalizing st with
  | nil => rfl
  | cons pk ps ih =>
    cases pk with
    | hxvf ts pl => exact absurd (h (.hxvf ts pl) (by simp)) (by simp [Pkt.vts])
    | hxvs w hh =>
      rw [List.foldl_cons, ih _ (fun q hq => h q (by simp [hq]))]
      rfl
    | hxaf ts s =>
      rw [List.foldl_cons, ih _ (fun q hq => h q (by simp [hq]))]
      exact audioTsUpdate_vrate _ _ st

lemma frac_toRat_nonpos (f : Frac) (hden : 0 < f.den) :
    f.toRat ≤ 0 ↔ f.num ≤ 0 := by
  unfold Frac.toRat
  rw [div_nonpos_iff]
  have hd : (0 : Rat) < (f.den : Rat) := by exact_mod_cast hden
  constructor
  · rintro (⟨h1, h2⟩ | ⟨h1, h2⟩)
    · have : f.num = 0 := by
        have hz : (f.num : Rat) = 0 := le_antisymm (by linarith) h1
        exact_mod_cast hz
      omega
    · exact_mod_cast h1
  · intro h
    right
    exact ⟨by exact_mod_cast h, le_of_lt hd⟩

/-- The sign invariant of the running averages: every denominator built by
the code is positive and the packet counters are non-negative. -/
def ratesInv (st : InferState) : Prop :=
  0 < st.video_avg_frame_rate.den ∧ 0 < st.audio_avg_sample_rate.den ∧
  0 ≤ st.video_packets_count ∧ 0 ≤ st.audio_packets_count

lemma videoTsUpdate_ratesInv (ts : Int) (st : InferState) (h : ratesInv st) :
    ratesInv (videoTsUpdate ts st) := by
  obtain ⟨h1, h2, h3, h4⟩ := h
  unfold ratesInv
  simp only [videoTsUpdate]
  split
  · exact ⟨h1, h2, h3, h4⟩
  · rename_i hinit
    refine ⟨?_, ?_, ?_, ?_⟩
    · split
      · rename_i hlt
        have he : 0 < ts - st.video_ts_initial - st.video_ts_prev := by omega
        dsimp only
        split
        · rename_i hcnt
          simp only [Frac.fdiv, Frac.add, Frac.mul, Frac.ofInt]
          have hc : (0 : Int) < st.video_packets_count + 1 := by omega
          positivity
        · simp only [Frac.fdiv, Frac.ofInt]
          positivity
      · exact h1
    · split
      · dsimp only
        exact h2
      · exact h2
    · split
      · dsimp only
        omega
      · exact h3
    · split
      · dsimp only
        exact h4
      · exact h4

lemma audioTsUpdate_ratesInv (len : Nat) (ts : Int) (st : InferState)
    (h : ratesInv st) : ratesInv (audioTsUpdate len ts st) := by
  obtain ⟨h1, h2, h3, h4⟩ := h
  unfold ratesInv
  simp only [audioTsUpdate]
  split
  · exact ⟨h1, h2, h3, h4⟩
  · rename_i hinit
    refine ⟨?_, ?_, ?_, ?_⟩
    · split
      · dsimp only
        exact h1
      · exact h1
    · split
      · rename_i hlt
        have he : 0 < ts - st.audio_ts_initial - st.audio_ts_prev := by omega
        dsimp only
        split
        · rename_i hcnt
          simp only [Frac.fdiv, Frac.add, Frac.mul, Frac.ofInt]
          have hc : (0 : Int) < st.audio_packets_count + 1 := by omega
          positivity
        · simp only [Frac.fdiv, Frac.ofInt]
          positivity
      · exact h2
    · split
      · dsimp only
        exact h3
      · exact h3
    · split
      · dsimp only
        omega
      · exact h4

lemma step1_ratesInv (pk : Pkt) (st : InferState) (h : ratesInv st) :
    ratesInv (step1 st pk) := by
  cases pk with
  | hxvs w hh => exact h
  | hxvf ts pl => exact videoTsUpdate_ratesInv _ st h
  | hxaf ts s => exact audioTsUpdate_ratesInv _ _ st h

/-- The final scan state of the Inference Pass satisfies the sign
invariant. -/
lemma infer_ratesInv (ps : List Pkt) : ratesInv (infer ps) := by
  unfold infer
  have hbase : ratesInv ({} : InferState) := by
    constructor
    · norm_num
    constructor
    · norm_num
    constructor <;> norm_num
  generalize ({} : InferState) = st at hbase ⊢
  induction ps generalizing st with
  | nil => exact hbase
  | cons pk ps ih => exact ih _ (step1_ratesInv pk st hbase)

/-- The whole run on an encoded packet sequence with end marker, when a
positive video rate was inferred: both passes complete and the emissions
are those of the per-packet extraction semantics. -/
lemma runProgram_encoded (skip : Bool) (qv qa : Frac) (ps : List Pkt)
    (hwf : ∀ q ∈ ps, q.wf = true)
    (hrate : 0 < (infer ps).video_avg_frame_rate.num) :
    runProgram skip qv qa (encStream ps ++ encEnd)
      = some (.completed
          (!skip && decide (0 < (infer ps).audio_avg_sample_rate.num))
          ((run2 ⟨!skip && decide (0 < (infer ps).audio_avg_sample_rate.num),
              (infer ps).video_ts_initial, (infer ps).audio_ts_initial, qv, qa⟩
            {} ps).2)) := by
  have h1 : pass1 (encStream ps ++ encEnd) = some (.ok (infer ps)) := by
    have := pass1_stream_end ps hwf []
    simpa using this
  have h2 : pass2 ⟨!skip && decide (0 < (infer ps).audio_avg_sample_rate.num),
      (infer ps).video_ts_initial, (infer ps).audio_ts_initial, qv, qa⟩
      (encStream ps ++ encEnd)
      = some ((run2 ⟨!skip && decide (0 < (infer ps).audio_avg_sample_rate.num),
          (infer ps).video_ts_initial, (infer ps).audio_ts_initial, qv, qa⟩ {} ps).2,
        .ok) := by
    have := pass2_stream_end ps hwf []
      ⟨!skip && decide (0 < (infer ps).audio_avg_sample_rate.num),
        (infer ps).video_ts_initial, (infer ps).audio_ts_initial, qv, qa⟩
    simpa using this
  simp only [runProgram, h1]
  rw [if_neg (by omega)]
  rw [h2]

/-- On-disk bytes of a video-frame packet whose header declares L payload
bytes while only the bytes of pl remain before physical end of file. -/
def truncVideoTail (L ts : Nat) (pl : List Nat) : List Nat :=
  le32 HXVF ++ (le32 L ++ le32 ts ++ [0, 0, 0, 0]) ++ pl

/-- On-disk bytes of an audio-frame packet whose header declares length L
while only the bytes of sa remain before physical end of file. -/
def truncAudioTail (L ts : Nat) (sa : List Nat) : List Nat :=
  le32 HXAF ++ (le32 L ++ le32 ts ++ [0, 0, 0, 0, 0, 0, 0, 0]) ++ sa

/-- A video payload truncated by physical end of file: ReadToBuffer comes
up short and the Extraction Pass loop body stops fatally without emitting
anything further. -/
lemma pass2Step_trunc_video (p : MuxParams) (st : ExtractState)
    (acc : List Emitted) (L ts : Nat) (pl : List Nat)
    (hL : L < 4294967296) (hts : ts < 4294967296) (hshort : pl.length < L) :
    pass2Step p ⟨truncVideoTail L ts pl, false⟩ st acc
      = .stop (acc, .prematureEOF) := by
  simp only [pass2Step, truncVideoTail, List.append_assoc]
  rw [freadN_exact (le32_length HXVF)]
  simp only [le32_length, leVal_HXVF]
  rw [freadN12 L ts [0, 0, 0, 0] pl rfl false]
  simp only [p2hxvf, take4_le32, drop4_le32, leVal_le32 hL, leVal_le32 hts]
  have hL0 : ¬ L = 0 := by omega
  simp only [readToBuffer, if_neg hL0]
  rw [freadN_short hshort]
  simp [hshort, ne_HXVF_HXVS]

lemma pass2_trunc_video (fuel : Nat) (p : MuxParams) (st : ExtractState)
    (acc : List Emitted) (L ts : Nat) (pl : List Nat)
    (hL : L < 4294967296) (hts : ts < 4294967296) (hshort : pl.length < L) :
    pass2Go (fuel + 1) p ⟨truncVideoTail L ts pl, false⟩ st acc
      = some (acc, .prematureEOF) := by
  rw [pass2Go.eq_2, pass2Step_trunc_video p st acc L ts pl hL hts hshort]

/-- An audio payload truncated by physical end of file, with an audio
stream established: the same fatal stop, with nothing further emitted. -/
lemma pass2Step_trunc_audio (p : MuxParams) (st : ExtractState)
    (acc : List Emitted) (L ts : Nat) (sa : List Nat)
    (hL : L < 4294967296) (hts : ts < 4294967296)
    (hshort : sa.length < wrapSub4 L) (ha : p.hasAudio = true) :
    pass2Step p ⟨truncAudioTail L ts sa, false⟩ st acc
      = .stop (acc, .prematureEOF) := by
  simp only [pass2Step, truncAudioTail, List.append_assoc]
  rw [freadN_exact (le32_length HXAF)]
  simp only [le32_length, leVal_HXAF]
  rw [freadN16 L ts [0, 0, 0, 0, 0, 0, 0, 0] sa rfl false]
  simp only [p2hxaf, take4_le32, drop4_le32, leVal_le32 hL, leVal_le32 hts, ha]
  have hw0 : ¬ wrapSub4 L = 0 := by omega
  unfold readToBuffer
  rw [if_neg hw0, freadN_short hshort]
  simp [hshort, ne_HXAF_HXVS, ne_HXAF_HXVF]

lemma pass2_trunc_audio (fuel : Nat) (p : MuxParams) (st : ExtractState)
    (acc : List Emitted) (L ts : Nat) (sa : List Nat)
    (hL : L < 4294967296) (hts : ts < 4294967296)
    (hshort : sa.length < wrapSub4 L) (ha : p.hasAudio = true) :
    pass2Go (fuel + 1) p ⟨truncAudioTail L ts sa, false⟩ st acc
      = some (acc, .prematureEOF) := by
  rw [pass2Go.eq_2, pass2Step_trunc_audio p st acc L ts sa hL hts hshort ha]

/-- On-disk bytes of an audio-frame header with an arbitrary declared
length field and no payload bytes of its own. -/
def rawAudioHdr (L ts : Nat) : List Nat :=
  le32 HXAF ++ (le32 L ++ le32 ts ++ [0, 0, 0, 0, 0, 0, 0, 0])

/-- The Inference Pass on an audio header with declared length L skips
forward by exactly (L - 4) mod 2^32 bytes, applying the audio update, with
no check that L is at least 4. -/
lemma pass1_rawAudio (fuel : Nat) (rest : List Nat) (st : InferState)
    (L ts : Nat) (hL : L < 4294967296) (hts : ts < 4294967296) :
    pass1Go (fuel + 1) ⟨rawAudioHdr L ts ++ rest, false⟩ st
      = pass1Go fuel ⟨rest.drop (wrapSub4 L), false⟩
          (audioTsUpdate L (ts : Int) st) := by
  simp only [pass1Go, rawAudioHdr, List.append_assoc]
  rw [freadN_exact (le32_length HXAF)]
  simp only [le32_length, leVal_HXAF]
  rw [freadN16 L ts [0, 0, 0, 0, 0, 0, 0, 0] rest rfl false]
  simp [take4_le32, drop4_le32, leVal_le32 hL, leVal_le32 hts, fseekCur,
    le32_length, ne_HXAF_HXVS, ne_HXAF_HXVF]

/-- The Extraction Pass without an audio stream seeks forward by exactly
(L - 4) mod 2^32 bytes for such a header. -/
lemma pass2Step_rawAudio_skip (rest : List Nat) (p : MuxParams)
    (st : ExtractState) (acc : List Emitted)
    (L ts : Nat) (hL : L < 4294967296) (hts : ts < 4294967296)
    (ha : p.hasAudio = false) :
    pass2Step p ⟨rawAudioHdr L ts ++ rest, false⟩ st acc
      = .next ⟨rest.drop (wrapSub4 L), false⟩ st acc := by
  simp only [pass2Step, rawAudioHdr, List.append_assoc]
  rw [freadN_exact (le32_length HXAF)]
  simp only [le32_length, leVal_HXAF]
  rw [freadN16 L ts [0, 0, 0, 0, 0, 0, 0, 0] rest rfl false]
  simp [p2hxaf, take4_le32, drop4_le32, leVal_le32 hL, leVal_le32 hts, fseekCur,
    le32_length, ne_HXAF_HXVS, ne_HXAF_HXVF, ha]

lemma pass2_rawAudio_skip (fuel : Nat) (rest : List Nat) (p : MuxParams)
    (st : ExtractState) (acc : List Emitted)
    (L ts : Nat) (hL : L < 4294967296) (hts : ts < 4294967296)
    (ha : p.hasAudio = false) :
    pass2Go (fuel + 1) p ⟨rawAudioHdr L ts ++ rest, false⟩ st acc
      = pass2Go fuel p ⟨rest.drop (wrapSub4 L), false⟩ st acc := by
  rw [pass2Go.eq_2, pass2Step_rawAudio_skip rest p st acc L ts hL hts ha]
  rfl

/-- The Extraction Pass with an audio stream attempts to read the whole
wrapped length; when fewer bytes remain the run dies as a truncation, not
as a rejection of the bad length field. -/
lemma pass2_rawAudio_read (fuel : Nat) (rest : List Nat) (p : MuxParams)
    (st : ExtractState) (acc : List Emitted)
    (L ts : Nat) (hL : L < 4294967296) (hts : ts < 4294967296)
    (ha : p.hasAudio = true) (hshort : rest.length < wrapSub4 L) :
    pass2Go (fuel + 1) p ⟨rawAudioHdr L ts ++ rest, false⟩ st acc
      = some (acc, .prematureEOF) := by
  have h : pass2Go (fuel + 1) p ⟨truncAudioTail L ts rest, false⟩ st acc
      = some (acc, .prematureEOF) :=
    pass2_trunc_audio fuel p st acc L ts rest hL hts hshort ha
  have heq : truncAudioTail L ts rest = rawAudioHdr L ts ++ rest := by
    simp [truncAudioTail, rawAudioHdr, List.append_assoc]
  rw [heq] at h
  exact h

lemma map_append_getElem (A pl : List Nat) (h4 : 4 < pl.length) :
    ((A ++ pl).map some)[A.length + 4]? = some (some (pl.getD 4 0)) := by
  rw [List.map_append, List.getElem?_append_right (by simp)]
  simp only [List.length_map]
  have h : A.length + 4 - A.length = 4 := by omega
  rw [h, map_some_getElem pl 4 h4]

/-- A parameter-set payload arriving while the buffer cleanly holds the
already-withheld bytes: it is appended and withheld, nothing is emitted. -/
lemma step2_video_ps_clean (p : MuxParams) (A : List Nat) (ts : Nat)
    (pl : List Nat) (h5 : 5 ≤ pl.length)
    (hps : pl.getD 4 0 % 32 = 7 ∨ pl.getD 4 0 % 32 = 8) :
    step2 p ⟨A.map some, A.length, A.length⟩ (.hxvf ts pl)
      = (⟨(A ++ pl).map some, pl.length + A.length, A.length + pl.length⟩, []) := by
  have hpl : pl ≠ [] := by
    intro h
    subst h
    simp at h5
  have h4 : 4 < pl.length := by omega
  simp only [step2]
  rw [readToBuffer_clean A pl hpl]
  have hnal : nalIsPS (((A ++ pl).map some)[A.length + 4]?) = true := by
    rw [map_append_getElem A pl h4]
    simp only [nalIsPS, Bool.or_eq_true, beq_iff_eq]
    exact hps
  simp only [List.map_append] at hnal
  simp [hnal, List.map_append]

/-- An access-unit payload arriving while the buffer cleanly holds the
withheld bytes: one packet is emitted carrying the withheld bytes followed
by the payload, and the offset is reset. -/
lemma step2_video_au_clean (p : MuxParams) (A : List Nat) (ts : Nat)
    (pl : List Nat) (h5 : 5 ≤ pl.length)
    (h7 : ¬ pl.getD 4 0 % 32 = 7) (h8 : ¬ pl.getD 4 0 % 32 = 8) :
    step2 p ⟨A.map some, A.length, A.length⟩ (.hxvf ts pl)
      = (⟨(A ++ pl).map some, pl.length + A.length, 0⟩,
         [⟨.video, (A ++ pl).map some, (ts : Int) - p.video_ts_initial,
           scalePts ((ts : Int) - p.video_ts_initial) p.qv⟩]) := by
  have hpl : pl ≠ [] := by
    intro h
    subst h
    simp at h5
  have h4 : 4 < pl.length := by omega
  simp only [step2]
  rw [readToBuffer_clean A pl hpl]
  have hnal : nalIsPS (((A ++ pl).map some)[A.length + 4]?) = false := by
    rw [map_append_getElem A pl h4]
    simp only [nalIsPS, Bool.or_eq_false_iff, beq_eq_false_iff_ne, ne_eq]
    exact ⟨h7, h8⟩
  simp only [hnal, Bool.false_eq_true, if_false]
  rw [List.take_of_length_le (by simp [Nat.add_comm])]

lemma readToBuffer_nal (m : List (Option Nat)) (b o : Nat) (pl : List Nat)
    (h4 : 4 < pl.length) :
    (readToBuffer ⟨pl, false⟩ m b o pl.length).mem[o + 4]?
      = some (some (pl.getD 4 0)) := by
  have hlen0 : ¬ pl.length = 0 := by omega
  have hread : freadN pl.length ⟨pl, false⟩ = (pl, ⟨[], false⟩) := by
    have := @freadN_exact pl _ rfl [] false
    simpa using this
  simp only [readToBuffer, if_neg hlen0]
  rw [hread]
  exact writeMem_getElem _ o 4 pl h4

/-- Claim C1 (code bug): for every well-formed packet sequence with no
end-of-stream packet, physical end of file is not tolerated — the run
aborts with the fatal premature-end-of-file exit instead of completing.
The loop condition tests feof, but the indicator is only set by the next
header fread, whose short count triggers exit(1) before the test. -/
theorem c1_eof_not_tolerated (skip : Bool) (qv qa : Frac) (ps : List Pkt)
    (hwf : ∀ q ∈ ps, q.wf = true) :
    runProgram skip qv qa (encStream ps) = some .prematureEOF ∧
    ∀ b ems, ¬ runProgram skip qv qa (encStream ps) = some (.completed b ems) := by
  have h := pass1_stream_noend ps hwf
  constructor
  · simp [runProgram, h]
  · intro b ems
    simp [runProgram, h]

/-- Witness for C1 at a concrete one-packet input. -/
theorem c1_eof_not_tolerated_witness :
    (∀ q ∈ [Pkt.hxvs 1920 1080], q.wf = true) ∧
    runProgram false ⟨1, 1000⟩ ⟨1, 1000⟩ (encStream [Pkt.hxvs 1920 1080])
      = some .prematureEOF := by
  refine ⟨by decide, ?_⟩
  exact (c1_eof_not_tolerated false ⟨1, 1000⟩ ⟨1, 1000⟩ [Pkt.hxvs 1920 1080]
    (by decide)).1

/-- A file made of one alternate video-size-descriptor packet followed by
the end marker. -/
def hxvtOnlyInput : List Nat :=
  le32 HXVT ++ le32 2560 ++ le32 1920 ++ [0, 0, 0, 0] ++ le32 HXFI

/-- Claim C3 (code bug): the scanner has no case for the alternate
video-size-descriptor tag.  On a file carrying one such packet the
Inference Pass records no dimensions at all (its scan state stays at the
initial state, so the run ends in NoVideoDetected), instead of treating the
packet like the primary video-size descriptor. -/
theorem c3_hxvt_unrecognized :
    pass1 hxvtOnlyInput = some (.ok {}) ∧
    resVideoW (pass1 hxvtOnlyInput) = none ∧
    runProgram false ⟨1, 1000⟩ ⟨1, 1000⟩ hxvtOnlyInput = some .noVideoDetected := by
  refine ⟨by decide, by decide, by decide⟩

/-- Two video frames at raw timestamps 50 and 150 ms, then the end
marker: true inter-frame interval 100 ms. -/
def c4Input : List Nat := encStream [.hxvf 50 [], .hxvf 150 []] ++ encEnd

/-- Claim C4 (code bug): with a nonzero camera epoch the computed average
frame rate is wrong.  For two frames at interval 100 ms starting at raw
timestamp 50 the code compares the relative timestamp 100 against the raw
initial 50 and measures an elapsed time of 50 ms, reporting 20 fps where
the claim requires 1000/100 = 10 fps. -/
theorem c4_rate_epoch_bug :
    (resVideoRate (pass1 c4Input)).toRat = 20 ∧
    ¬ (resVideoRate (pass1 c4Input)).toRat = 1000 / 100 := by
  have h : resVideoRate (pass1 c4Input) = ⟨1000, 50⟩ := by decide
  rw [h]
  constructor
  · norm_num [Frac.toRat]
  · norm_num [Frac.toRat]

/-- Claim C9 (confirmed): a video payload is withheld — appended at the
pending offset with nothing emitted — exactly when the low five bits of
the byte after the 4-byte start code are 7 or 8. -/
theorem c9_nal_withhold (p : MuxParams) (st : ExtractState) (ts : Nat)
    (pl : List Nat) (h5 : 5 ≤ pl.length) :
    ((step2 p st (.hxvf ts pl)).2 = [] ∧
     (step2 p st (.hxvf ts pl)).1.boff = st.boff + pl.length)
    ↔ (pl.getD 4 0 % 32 = 7 ∨ pl.getD 4 0 % 32 = 8) := by
  have h4 : 4 < pl.length := by omega
  have hnal := readToBuffer_nal st.mem st.bsize st.boff pl h4
  have hfull := readToBuffer_full pl false st.mem st.bsize st.boff
  by_cases hps : pl.getD 4 0 % 32 = 7 ∨ pl.getD 4 0 % 32 = 8
  · have ht : nalIsPS
        ((readToBuffer ⟨pl, false⟩ st.mem st.bsize st.boff pl.length).mem[st.boff + 4]?)
        = true := by
      rw [hnal]
      simp only [nalIsPS, Bool.or_eq_true, beq_iff_eq]
      exact hps
    simp [step2, ht, hfull, hps, -List.getD_eq_getElem?_getD]
  · have hf : nalIsPS
        ((readToBuffer ⟨pl, false⟩ st.mem st.bsize st.boff pl.length).mem[st.boff + 4]?)
        = false := by
      rw [hnal]
      simp only [nalIsPS, Bool.or_eq_false_iff, beq_eq_false_iff_ne, ne_eq]
      exact ⟨fun h => hps (Or.inl h), fun h => hps (Or.inr h)⟩
    simp [step2, hf, hps, -List.getD_eq_getElem?_getD]

/-- Witness for C9 at a concrete parameter-set payload. -/
theorem c9_nal_withhold_witness :
    (((step2 ⟨true, 0, 0, ⟨1, 1000⟩, ⟨1, 1000⟩⟩ {} (.hxvf 0 [0, 0, 0, 1, 103])).2 = [] ∧
      (step2 ⟨true, 0, 0, ⟨1, 1000⟩, ⟨1, 1000⟩⟩ {} (.hxvf 0 [0, 0, 0, 1, 103])).1.boff
        = ({} : ExtractState).boff + [0, 0, 0, 1, 103].length)
     ↔ ([0, 0, 0, 1, 103].getD 4 0 % 32 = 7 ∨ [0, 0, 0, 1, 103].getD 4 0 % 32 = 8)) :=
  c9_nal_withhold ⟨true, 0, 0, ⟨1, 1000⟩, ⟨1, 1000⟩⟩ {} 0 [0, 0, 0, 1, 103] (by decide)

/-- Claim C10 (confirmed): both passes compute the audio payload size as
(declared length - 4) modulo 2^32 with no check that the length is at
least 4.  For a declared length under 4 the size wraps to within 4 of
2^32; the Inference Pass and the audio-less Extraction Pass seek forward
by exactly that amount, and the Extraction Pass with an audio stream
attempts to read that many bytes and dies as a truncation, never rejecting
the packet. -/
theorem c10_wrap_no_check (L : Nat) (hL : L < 4) (ts : Nat)
    (hts : ts < 4294967296) (st : InferState) (fuel : Nat) (rest : List Nat)
    (p : MuxParams) (xst : ExtractState) (acc : List Emitted) :
    wrapSub4 L = 4294967296 - (4 - L) ∧
    4294967292 ≤ wrapSub4 L ∧
    pass1Go (fuel + 1) ⟨rawAudioHdr L ts ++ rest, false⟩ st
      = pass1Go fuel ⟨rest.drop (wrapSub4 L), false⟩ (audioTsUpdate L (ts : Int) st) ∧
    (p.hasAudio = false →
      pass2Go (fuel + 1) p ⟨rawAudioHdr L ts ++ rest, false⟩ xst acc
        = pass2Go fuel p ⟨rest.drop (wrapSub4 L), false⟩ xst acc) ∧
    (p.hasAudio = true → rest.length < wrapSub4 L →
      pass2Go (fuel + 1) p ⟨rawAudioHdr L ts ++ rest, false⟩ xst acc
        = some (acc, .prematureEOF)) := by
  have hL32 : L < 4294967296 := by omega
  refine ⟨by unfold wrapSub4; omega, by unfold wrapSub4; omega,
    pass1_rawAudio fuel rest st L ts hL32 hts,
    fun ha => pass2_rawAudio_skip fuel rest p xst acc L ts hL32 hts ha,
    fun ha hshort => pass2_rawAudio_read fuel rest p xst acc L ts hL32 hts ha hshort⟩

/-- Witness for C10 at declared length 2. -/
theorem c10_wrap_no_check_witness :
    wrapSub4 2 = 4294967294 ∧
    pass1Go 1 ⟨rawAudioHdr 2 0 ++ [], false⟩ {}
      = pass1Go 0 ⟨([] : List Nat).drop (wrapSub4 2), false⟩
          (audioTsUpdate 2 (0 : Int) {}) ∧
    pass2Go 1 ⟨true, 0, 0, ⟨1, 1000⟩, ⟨1, 1000⟩⟩ ⟨rawAudioHdr 2 0 ++ [], false⟩ {} []
      = some ([], .prematureEOF) := by
  have h := c10_wrap_no_check 2 (by decide) 0 (by decide) {} 0 []
    ⟨true, 0, 0, ⟨1, 1000⟩, ⟨1, 1000⟩⟩ {} []
  exact ⟨by decide, h.2.2.1, h.2.2.2.2 rfl (by decide)⟩

lemma pass2_stream_end_nojunk (ps : List Pkt) (hwf : ∀ q ∈ ps, q.wf = true)
    (P : MuxParams) :
    pass2 P (encStream ps ++ encEnd) = some ((run2 P {} ps).2, .ok) := by
  have := pass2_stream_end ps hwf [] P
  simpa using this

/-- Claim C7 (confirmed): an input whose last declared payload is cut off
by physical end of file makes the Extraction Pass fail with the fatal
truncation exit, and the emissions are exactly those of the complete
packets before it — the truncated packet contributes nothing.  Both the
video-frame and (with an audio stream) the audio-frame cases are covered. -/
theorem c7_truncation_no_partial (P : MuxParams) (good : List Pkt)
    (hwf : ∀ q ∈ good, q.wf = true) (L ts : Nat) (pl : List Nat)
    (hL : L < 4294967296) (hts : ts < 4294967296) (hshort : pl.length < L) :
    pass2 P (encStream good ++ truncVideoTail L ts pl)
      = some ((run2 P {} good).2, .prematureEOF) ∧
    (∀ (La tsa : Nat) (sa : List Nat), La < 4294967296 → tsa < 4294967296 →
      sa.length < wrapSub4 La → P.hasAudio = true →
      pass2 P (encStream good ++ truncAudioTail La tsa sa)
        = some ((run2 P {} good).2, .prematureEOF)) := by
  constructor
  · rw [pass2_encoded good hwf (truncVideoTail L ts pl) P]
    exact pass2_trunc_video _ P _ _ L ts pl hL hts hshort
  · intro La tsa sa hLa htsa hshorta ha
    rw [pass2_encoded good hwf (truncAudioTail La tsa sa) P]
    exact pass2_trunc_audio _ P _ _ La tsa sa hLa htsa hshorta ha

/-- Witness for C7: one complete access-unit frame followed by a frame
declaring 10 payload bytes of which only 3 remain, and the audio variant
declaring length 6 with a single remaining byte. -/
theorem c7_truncation_no_partial_witness :
    pass2 ⟨true, 0, 0, ⟨1, 1000⟩, ⟨1, 1000⟩⟩
        (encStream [.hxvf 0 [0, 0, 0, 1, 65]] ++ truncVideoTail 10 5 [1, 2, 3])
      = some ((run2 ⟨true, 0, 0, ⟨1, 1000⟩, ⟨1, 1000⟩⟩ {} [.hxvf 0 [0, 0, 0, 1, 65]]).2,
          .prematureEOF) ∧
    pass2 ⟨true, 0, 0, ⟨1, 1000⟩, ⟨1, 1000⟩⟩
        (encStream [.hxvf 0 [0, 0, 0, 1, 65]] ++ truncAudioTail 6 5 [1])
      = some ((run2 ⟨true, 0, 0, ⟨1, 1000⟩, ⟨1, 1000⟩⟩ {} [.hxvf 0 [0, 0, 0, 1, 65]]).2,
          .prematureEOF) := by
  have h := c7_truncation_no_partial ⟨true, 0, 0, ⟨1, 1000⟩, ⟨1, 1000⟩⟩
    [.hxvf 0 [0, 0, 0, 1, 65]] (by decide) 10 5 [1, 2, 3]
    (by decide) (by decide) (by decide)
  exact ⟨h.1, h.2 6 5 [1] (by decide) (by decide) (by decide) rfl⟩

/-- Claim C5 (confirmed): a video sequence of two parameter-set payloads
followed by an access-unit payload is emitted as exactly one packet whose
bytes are the three payloads concatenated in order, timestamped with the
access-unit packet's rebased timestamp scaled into the muxer time base;
a sequence of two access-unit payloads is emitted as two separate
packets. -/
theorem c5_coalescing (P : MuxParams) (ts1 ts2 ts3 : Nat) (p1 p2 p3 : List Nat)
    (ht1 : ts1 < 4294967296) (ht2 : ts2 < 4294967296) (ht3 : ts3 < 4294967296)
    (hl1 : p1.length < 4294967296) (hl2 : p2.length < 4294967296)
    (hl3 : p3.length < 4294967296)
    (h51 : 5 ≤ p1.length) (h52 : 5 ≤ p2.length) (h53 : 5 ≤ p3.length)
    (hps1 : p1.getD 4 0 % 32 = 7 ∨ p1.getD 4 0 % 32 = 8)
    (hps2 : p2.getD 4 0 % 32 = 7 ∨ p2.getD 4 0 % 32 = 8)
    (h73 : ¬ p3.getD 4 0 % 32 = 7) (h83 : ¬ p3.getD 4 0 % 32 = 8) :
    pass2 P (encStream [.hxvf ts1 p1, .hxvf ts2 p2, .hxvf ts3 p3] ++ encEnd)
      = some ([⟨.video, (p1 ++ p2 ++ p3).map some, (ts3 : Int) - P.video_ts_initial,
               scalePts ((ts3 : Int) - P.video_ts_initial) P.qv⟩], .ok) ∧
    (∀ (u1 u2 : Nat) (q1 q2 : List Nat), u1 < 4294967296 → u2 < 4294967296 →
      q1.length < 4294967296 → q2.length < 4294967296 →
      5 ≤ q1.length → 5 ≤ q2.length →
      ¬ q1.getD 4 0 % 32 = 7 → ¬ q1.getD 4 0 % 32 = 8 →
      ¬ q2.getD 4 0 % 32 = 7 → ¬ q2.getD 4 0 % 32 = 8 →
      pass2 P (encStream [.hxvf u1 q1, .hxvf u2 q2] ++ encEnd)
        = some ([⟨.video, q1.map some, (u1 : Int) - P.video_ts_initial,
                  scalePts ((u1 : Int) - P.video_ts_initial) P.qv⟩,
                 ⟨.video, q2.map some, (u2 : Int) - P.video_ts_initial,
                  scalePts ((u2 : Int) - P.video_ts_initial) P.qv⟩], .ok)) := by
  have e0 : ({} : ExtractState)
      = ⟨List.map some [], List.length ([] : List Nat), List.length ([] : List Nat)⟩ := rfl
  constructor
  · have hwf : ∀ q ∈ [Pkt.hxvf ts1 p1, Pkt.hxvf ts2 p2, Pkt.hxvf ts3 p3],
        q.wf = true := by
      intro q hq
      simp only [List.mem_cons, List.not_mem_nil, or_false] at hq
      rcases hq with rfl | rfl | rfl <;> simp [Pkt.wf] <;> omega
    rw [pass2_stream_end_nojunk _ hwf P]
    have hrun : (run2 P {} [Pkt.hxvf ts1 p1, Pkt.hxvf ts2 p2, Pkt.hxvf ts3 p3]).2
        = [⟨.video, (p1 ++ p2 ++ p3).map some, (ts3 : Int) - P.video_ts_initial,
             scalePts ((ts3 : Int) - P.video_ts_initial) P.qv⟩] := by
      simp only [run2]
      rw [e0, step2_video_ps_clean P [] ts1 p1 h51 hps1]
      dsimp only
      simp only [List.nil_append, List.length_nil, Nat.add_zero, Nat.zero_add]
      rw [step2_video_ps_clean P p1 ts2 p2 h52 hps2]
      dsimp only
      rw [show p2.length + p1.length = (p1 ++ p2).length from by simp [Nat.add_comm],
          show p1.length + p2.length = (p1 ++ p2).length from by simp]
      rw [step2_video_au_clean P (p1 ++ p2) ts3 p3 h53 h73 h83]
      simp
    rw [hrun]
  · intro u1 u2 q1 q2 hu1 hu2 hq1 hq2 h5a h5b h7a h8a h7b h8b
    have hwf : ∀ q ∈ [Pkt.hxvf u1 q1, Pkt.hxvf u2 q2], q.wf = true := by
      intro q hq
      simp only [List.mem_cons, List.not_mem_nil, or_false] at hq
      rcases hq with rfl | rfl <;> simp [Pkt.wf] <;> omega
    rw [pass2_stream_end_nojunk _ hwf P]
    have hrun : (run2 P {} [Pkt.hxvf u1 q1, Pkt.hxvf u2 q2]).2
        = [⟨.video, q1.map some, (u1 : Int) - P.video_ts_initial,
             scalePts ((u1 : Int) - P.video_ts_initial) P.qv⟩,
           ⟨.video, q2.map some, (u2 : Int) - P.video_ts_initial,
             scalePts ((u2 : Int) - P.video_ts_initial) P.qv⟩] := by
      simp only [run2]
      rw [e0, step2_video_au_clean P [] u1 q1 h5a h7a h8a]
      dsimp only
      simp only [List.nil_append, List.length_nil, Nat.add_zero, Nat.zero_add]
      rw [(step2_video_au_boff0 P (q1.map some) q1.length u2 q2 h5b h7b h8b).2]
      simp
    rw [hrun]

/-- Witness for C5 at concrete SPS/PPS/access-unit payloads. -/
theorem c5_coalescing_witness :
    pass2 ⟨false, 0, 0, ⟨1, 1000⟩, ⟨1, 1000⟩⟩
        (encStream [.hxvf 0 [0, 0, 0, 1, 103], .hxvf 0 [0, 0, 0, 1, 104],
                    .hxvf 40 [0, 0, 0, 1, 65]] ++ encEnd)
      = some ([⟨.video,
          ([0, 0, 0, 1, 103] ++ [0, 0, 0, 1, 104] ++ [0, 0, 0, 1, 65]).map some,
          (40 : Int) - 0, scalePts ((40 : Int) - 0) ⟨1, 1000⟩⟩], .ok) ∧
    pass2 ⟨false, 0, 0, ⟨1, 1000⟩, ⟨1, 1000⟩⟩
        (encStream [.hxvf 0 [0, 0, 0, 1, 65], .hxvf 40 [0, 0, 0, 1, 66]] ++ encEnd)
      = some ([⟨.video, [0, 0, 0, 1, 65].map some, (0 : Int) - 0,
                scalePts ((0 : Int) - 0) ⟨1, 1000⟩⟩,
               ⟨.video, [0, 0, 0, 1, 66].map some, (40 : Int) - 0,
                scalePts ((40 : Int) - 0) ⟨1, 1000⟩⟩], .ok) := by
  have h := c5_coalescing ⟨false, 0, 0, ⟨1, 1000⟩, ⟨1, 1000⟩⟩ 0 0 40
    [0, 0, 0, 1, 103] [0, 0, 0, 1, 104] [0, 0, 0, 1, 65]
    (by decide) (by decide) (by decide) (by decide) (by decide) (by decide)
    (by decide) (by decide) (by decide) (by decide) (by decide)
    (by decide) (by decide)
  exact ⟨h.1, h.2 0 40 [0, 0, 0, 1, 65] [0, 0, 0, 1, 66] (by decide) (by decide)
    (by decide) (by decide) (by decide) (by decide) (by decide) (by decide)
    (by decide) (by decide)⟩

/-- Claim C2 (code_bug): the coalescing buffer is shared with the audio
path, which reads every audio payload at offset 0 of the same buffer; an
audio frame arriving between a withheld parameter-set payload and the
following access unit overwrites the withheld bytes, so the emitted video
packet does not begin with the parameter-set payload. -/
theorem c2_buffer_clobbered :
    runProgram false ⟨1, 1000⟩ ⟨1, 1000⟩
        (encStream [.hxvf 0 [0, 0, 0, 1, 103, 9], .hxaf 10 [5, 6],
                    .hxvf 40 [0, 0, 0, 1, 65, 7], .hxaf 30 [8, 9]] ++ encEnd)
      = some (.completed true
          [⟨.audio, [some 5, some 6], 0, 0⟩,
           ⟨.video, [some 5, some 6, some 0, some 1, some 103, some 9,
                     some 0, some 0, some 0, some 1, some 65, some 7], 40, 40⟩,
           ⟨.audio, [some 8, some 9], 20, 20⟩]) ∧
    ([some 5, some 6, some 0, some 1, some 103, some 9,
      some 0, some 0, some 0, some 1, some 65, some 7] : List (Option Nat))
      ≠ ([0, 0, 0, 1, 103, 9] ++ [0, 0, 0, 1, 65, 7]).map some := by
  constructor
  · decide
  · decide

/-- Every emission of the Extraction Pass over video-frame packets only is
a video packet. -/
lemma run2_videoOnly_emits (p : MuxParams) (ps : List Pkt)
    (h : ∀ q ∈ ps, q.isVideo = true) :
    ∀ st : ExtractState, ∀ e ∈ (run2 p st ps).2, e.stream = .video := by
  induction ps with
  | nil => intro st e he; simp [run2] at he
  | cons pk ps ih =>
    intro st e he
    simp only [run2, List.mem_append] at he
    rcases he with he | he
    · cases pk with
      | hxvs w hh => simp [step2] at he
      | hxaf ts s =>
        exact absurd (h (.hxaf ts s) (by simp)) (by simp [Pkt.isVideo])
      | hxvf ts pl =>
        simp only [step2] at he
        split at he
        · simp at he
        · simp only [List.mem_singleton] at he
          subst he
          rfl
    · exact ih (fun q hq => h q (by simp [hq])) _ e he

/-- Claim C8 (confirmed): on a well-formed encoded stream the run ends in
the fatal NoVideoDetected outcome exactly when the inferred video frame
rate is not positive; and a positive-rate input of video packets only
completes with no audio stream and only video emissions. -/
theorem c8_no_video_gate (skip : Bool) (qv qa : Frac) (ps : List Pkt)
    (hwf : ∀ q ∈ ps, q.wf = true) :
    (runProgram skip qv qa (encStream ps ++ encEnd) = some .noVideoDetected
      ↔ (infer ps).video_avg_frame_rate.toRat ≤ 0) ∧
    ((∀ q ∈ ps, q.isVideo = true) →
      0 < (infer ps).video_avg_frame_rate.toRat →
      ∃ emits : List Emitted,
        runProgram skip qv qa (encStream ps ++ encEnd)
          = some (.completed false emits) ∧
        ∀ e ∈ emits, e.stream = .video) := by
  have h1 : pass1 (encStream ps ++ encEnd) = some (.ok (infer ps)) := by
    simpa using pass1_stream_end ps hwf []
  have hden := (infer_ratesInv ps).1
  constructor
  · by_cases hnum : (infer ps).video_avg_frame_rate.num ≤ 0
    · constructor
      · intro _
        exact (frac_toRat_nonpos _ hden).mpr hnum
      · intro _
        simp only [runProgram, h1]
        rw [if_pos hnum]
    · have hcompleted := runProgram_encoded skip qv qa ps hwf (by omega)
      constructor
      · intro hcontra
        rw [hcompleted] at hcontra
        simp at hcontra
      · intro htr
        exact absurd ((frac_toRat_nonpos _ hden).mp htr) hnum
  · intro hvid htrp
    have hnum : 0 < (infer ps).video_avg_frame_rate.num := by
      by_contra hc
      have := (frac_toRat_nonpos _ hden).mpr (by omega)
      linarith
    have harate : (infer ps).audio_avg_sample_rate = ⟨0, 1⟩ := by
      rw [infer, foldl_arate_videoOnly ps {} hvid]
    have hcompleted := runProgram_encoded skip qv qa ps hwf hnum
    rw [harate] at hcompleted
    simp only [show decide ((0 : Int) < (⟨0, 1⟩ : Frac).num) = false from rfl,
      Bool.and_false] at hcompleted
    refine ⟨_, hcompleted, ?_⟩
    intro e he
    exact run2_videoOnly_emits _ ps hvid {} e he

/-- Witness for C8 at a three-frame constant-interval video-only input. -/
theorem c8_no_video_gate_witness :
    ∃ emits : List Emitted,
      runProgram false ⟨1, 1000⟩ ⟨1, 1000⟩
          (encStream [.hxvf 0 [0, 0, 0, 1, 65], .hxvf 100 [0, 0, 0, 1, 65],
                      .hxvf 200 [0, 0, 0, 1, 65]] ++ encEnd)
        = some (.completed false emits) ∧
      ∀ e ∈ emits, e.stream = .video := by
  have h := c8_no_video_gate false ⟨1, 1000⟩ ⟨1, 1000⟩
    [.hxvf 0 [0, 0, 0, 1, 65], .hxvf 100 [0, 0, 0, 1, 65],
     .hxvf 200 [0, 0, 0, 1, 65]] (by decide)
  refine h.2 (by decide) ?_
  have hv : (infer [.hxvf 0 [0, 0, 0, 1, 65], .hxvf 100 [0, 0, 0, 1, 65],
      .hxvf 200 [0, 0, 0, 1, 65]]).video_avg_frame_rate
      = ⟨200000, 20000⟩ := by decide
  rw [hv]
  norm_num [Frac.toRat]

/-- A scan with no audio-frame packet never touches the audio running
rate. -/
lemma foldl_arate_noAudio (ps : List Pkt) (st : InferState)
    (h : ∀ q ∈ ps, Pkt.ats q = none) :
    (ps.foldl step1 st).audio_avg_sample_rate = st.audio_avg_sample_rate := by
  induction ps generalizing st with
  | nil => rfl
  | cons pk ps ih =>
    cases pk with
    | hxaf ts s => exact absurd (h (.hxaf ts s) (by simp)) (by simp [Pkt.ats])
    | hxvs w hh =>
      rw [List.foldl_cons, ih _ (fun q hq => h q (by simp [hq]))]
      rfl
    | hxvf ts pl =>
      rw [List.foldl_cons, ih _ (fun q hq => h q (by simp [hq]))]
      exact videoTsUpdate_arate _ st

/-- The video emissions of the per-packet extraction semantics carry, in
source order, the relative timestamps raw minus video reference. -/
lemma emits_filter_video (P : MuxParams) (ps : List Pkt) :
    ((ps.filterMap (emitSpec P)).filter
        (fun e => e.stream == StreamKind.video)).map Emitted.relTs
      = (ps.filterMap Pkt.vts).map (fun t => (t : Int) - P.video_ts_initial) := by
  induction ps with
  | nil => rfl
  | cons pk ps ih =>
    cases pk with
    | hxvs w hh => simpa [emitSpec, Pkt.vts] using ih
    | hxvf ts pl => simpa [emitSpec, Pkt.vts] using ih
    | hxaf ts s =>
      by_cases ha : P.hasAudio <;>
        simpa [emitSpec, Pkt.ats, Pkt.vts, ha] using ih

/-- The audio emissions of the per-packet extraction semantics carry, in
source order, the relative timestamps raw minus audio reference. -/
lemma emits_filter_audio (P : MuxParams) (ps : List Pkt) (ha : P.hasAudio = true) :
    ((ps.filterMap (emitSpec P)).filter
        (fun e => e.stream == StreamKind.audio)).map Emitted.relTs
      = (ps.filterMap Pkt.ats).map (fun t => (t : Int) - P.audio_ts_initial) := by
  induction ps with
  | nil => rfl
  | cons pk ps ih =>
    cases pk with
    | hxvs w hh => simpa [emitSpec, Pkt.ats] using ih
    | hxvf ts pl => simpa [emitSpec, Pkt.vts, Pkt.ats] using ih
    | hxaf ts s => simpa [emitSpec, Pkt.ats, ha] using ih

/-- Claim C6 counterexample: three video frames at raw timestamps 100, 250
and 50 milliseconds are emitted with relative timestamps 0, 150 and -50;
the third relative timestamp equals raw minus initial but is negative,
against the claim that all are non-negative. -/
theorem c6_counterexample :
    runProgram false ⟨1, 1000⟩ ⟨1, 1000⟩
        (encStream [.hxvf 100 [0, 0, 0, 1, 65], .hxvf 250 [0, 0, 0, 1, 65],
                    .hxvf 50 [0, 0, 0, 1, 65]] ++ encEnd)
      = some (.completed false
          [⟨.video, [0, 0, 0, 1, 65].map some, 0, 0⟩,
           ⟨.video, [0, 0, 0, 1, 65].map some, 150, 150⟩,
           ⟨.video, [0, 0, 0, 1, 65].map some, -50, -50⟩]) ∧
    (-50 : Int) < 0 := by
  constructor
  · decide
  · decide

/-- Claim C6 (corrected): on a well-formed access-unit stream with a
positive inferred video rate, the run completes and each emission's
relative timestamp equals its raw timestamp minus the raw timestamp of the
first packet of its type (as a signed integer, with no non-negativity
guarantee); the first video emission's relative timestamp is 0, and with
an audio stream the first audio emission's is 0 as well. -/
theorem c6_relative_ts (skip : Bool) (qv qa : Frac) (ps : List Pkt)
    (hA : Bool) (P : MuxParams)
    (hwf : ∀ q ∈ ps, q.wf = true) (hau : ∀ q ∈ ps, auVideo q = true)
    (hrate : 0 < (infer ps).video_avg_frame_rate.num)
    (hha : hA = (!skip && decide (0 < (infer ps).audio_avg_sample_rate.num)))
    (hP : P = ⟨hA, firstVideoTs ps, firstAudioTs ps, qv, qa⟩) :
    runProgram skip qv qa (encStream ps ++ encEnd)
      = some (.completed hA (ps.filterMap (emitSpec P))) ∧
    ((ps.filterMap (emitSpec P)).filter
        (fun e => e.stream == StreamKind.video)).map Emitted.relTs
      = (ps.filterMap Pkt.vts).map (fun t => (t : Int) - firstVideoTs ps) ∧
    ((ps.filterMap Pkt.vts).map
        (fun t => (t : Int) - firstVideoTs ps)).head? = some 0 ∧
    (hA = true →
      ((ps.filterMap (emitSpec P)).filter
          (fun e => e.stream == StreamKind.audio)).map Emitted.relTs
        = (ps.filterMap Pkt.ats).map (fun t => (t : Int) - firstAudioTs ps) ∧
      ((ps.filterMap Pkt.ats).map
          (fun t => (t : Int) - firstAudioTs ps)).head? = some 0) := by
  have hvinit : (infer ps).video_ts_initial = firstVideoTs ps := by
    rw [infer, foldl_vinit ps {} rfl]
  have hainit : (infer ps).audio_ts_initial = firstAudioTs ps := by
    rw [infer, foldl_ainit ps {} rfl]
  refine ⟨?_, ?_, ?_, ?_⟩
  · have hr := runProgram_encoded skip qv qa ps hwf hrate
    rw [hvinit, hainit, ← hha, ← hP] at hr
    rw [hr, (run2_spec P ps hwf hau {} rfl).2]
  · rw [hP]
    exact emits_filter_video _ ps
  · have hne : ps.filterMap Pkt.vts ≠ [] := by
      intro hnil
      have hnov : ∀ q ∈ ps, Pkt.vts q = none := List.filterMap_eq_nil_iff.mp hnil
      have := foldl_vrate_noVideo ps {} hnov
      rw [infer] at hrate
      rw [this] at hrate
      simp at hrate
    cases hv : ps.filterMap Pkt.vts with
    | nil => exact absurd hv hne
    | cons t rest =>
      simp [firstVideoTs, hv]
  · intro hAt
    constructor
    · rw [hP]
      exact emits_filter_audio _ ps hAt
    · have hne : ps.filterMap Pkt.ats ≠ [] := by
        intro hnil
        have hnoa : ∀ q ∈ ps, Pkt.ats q = none := List.filterMap_eq_nil_iff.mp hnil
        have hkeep := foldl_arate_noAudio ps {} hnoa
        rw [hha] at hAt
        simp only [Bool.and_eq_true, decide_eq_true_eq] at hAt
        rw [infer, hkeep] at hAt
        simp at hAt
      cases hv : ps.filterMap Pkt.ats with
      | nil => exact absurd hv hne
      | cons t rest =>
        simp [firstAudioTs, hv]

/-- Witness for C6 at a concrete mixed audio/video input. -/
theorem c6_relative_ts_witness :
    runProgram false ⟨1, 1000⟩ ⟨1, 1000⟩
        (encStream [.hxvf 0 [0, 0, 0, 1, 65], .hxaf 10 [5, 6],
                    .hxvf 100 [0, 0, 0, 1, 65], .hxaf 25 [7, 8]] ++ encEnd)
      = some (.completed true
          ([.hxvf 0 [0, 0, 0, 1, 65], .hxaf 10 [5, 6],
            .hxvf 100 [0, 0, 0, 1, 65], .hxaf 25 [7, 8]].filterMap
            (emitSpec ⟨true, 0, 10, ⟨1, 1000⟩, ⟨1, 1000⟩⟩))) ∧
    (([.hxvf 0 [0, 0, 0, 1, 65], .hxaf 10 [5, 6],
       .hxvf 100 [0, 0, 0, 1, 65], .hxaf 25 [7, 8]].filterMap
        (emitSpec ⟨true, 0, 10, ⟨1, 1000⟩, ⟨1, 1000⟩⟩)).filter
        (fun e => e.stream == StreamKind.video)).map Emitted.relTs
      = ([.hxvf 0 [0, 0, 0, 1, 65], .hxaf 10 [5, 6],
          .hxvf 100 [0, 0, 0, 1, 65], .hxaf 25 [7, 8]].filterMap Pkt.vts).map
          (fun t => (t : Int) - firstVideoTs
            [.hxvf 0 [0, 0, 0, 1, 65], .hxaf 10 [5, 6],
             .hxvf 100 [0, 0, 0, 1, 65], .hxaf 25 [7, 8]]) ∧
    (([.hxvf 0 [0, 0, 0, 1, 65], .hxaf 10 [5, 6],
       .hxvf 100 [0, 0, 0, 1, 65], .hxaf 25 [7, 8]].filterMap Pkt.vts).map
        (fun t => (t : Int) - firstVideoTs
          [.hxvf 0 [0, 0, 0, 1, 65], .hxaf 10 [5, 6],
           .hxvf 100 [0, 0, 0, 1, 65], .hxaf 25 [7, 8]])).head? = some 0 ∧
    (true = true →
      (([.hxvf 0 [0, 0, 0, 1, 65], .hxaf 10 [5, 6],
         .hxvf 100 [0, 0, 0, 1, 65], .hxaf 25 [7, 8]].filterMap
          (emitSpec ⟨true, 0, 10, ⟨1, 1000⟩, ⟨1, 1000⟩⟩)).filter
          (fun e => e.stream == StreamKind.audio)).map Emitted.relTs
        = ([.hxvf 0 [0, 0, 0, 1, 65], .hxaf 10 [5, 6],
            .hxvf 100 [0, 0, 0, 1, 65], .hxaf 25 [7, 8]].filterMap Pkt.ats).map
            (fun t => (t : Int) - firstAudioTs
              [.hxvf 0 [0, 0, 0, 1, 65], .hxaf 10 [5, 6],
               .hxvf 100 [0, 0, 0, 1, 65], .hxaf 25 [7, 8]]) ∧
      (([.hxvf 0 [0, 0, 0, 1, 65], .hxaf 10 [5, 6],
         .hxvf 100 [0, 0, 0, 1, 65], .hxaf 25 [7, 8]].filterMap Pkt.ats).map
          (fun t => (t : Int) - firstAudioTs
            [.hxvf 0 [0, 0, 0, 1, 65], .hxaf 10 [5, 6],
             .hxvf 100 [0, 0, 0, 1, 65], .hxaf 25 [7, 8]])).head? = some 0) :=
  c6_relative_ts false ⟨1, 1000⟩ ⟨1, 1000⟩
    [.hxvf 0 [0, 0, 0, 1, 65], .hxaf 10 [5, 6],
     .hxvf 100 [0, 0, 0, 1, 65], .hxaf 25 [7, 8]]
    true ⟨true, 0, 10, ⟨1, 1000⟩, ⟨1, 1000⟩⟩
    (by decide) (by decide) (by decide) (by decide) (by decide)
